import Mathlib

/-!
# tasks-cli: the two backends, import and export

A shallow embedding of the Go sources under `cmd/`:

* `saveToCSVFile`, `saveToSqliteDB`, `createCmd` (cmd/create.go),
  `deleteFromCSVFile`, `deleteFromDB` (cmd/delete.go),
  `editTaskInCSV`, `editTaskInDatabase` (cmd/edit.go),
  `getDataFromCSVFile`, `listFromCSVFile`, `formatInJSON` (cmd/list.go),
* `importFromJSON`, `importFromCSV`, `importCmd` (cmd/import.go),
  `exportToJSON`, `fetchTasksFromCSV` (cmd/export.go), `MustAtoi` (pkg/utils/atoi.go).

Conventions of the embedding:

* The content of `tasks.csv` is the sequence of records that `csv.Reader.ReadAll`
  yields for it and that `csv.Writer` is handed when it is written; the empty file
  is the empty sequence.  Quoting and line endings are the business of
  `encoding/csv` and are not modelled.
* A JSON document of tasks is the sequence of its objects, each with the six
  members named by the tags of `models.Task`; its syntax is the business of
  `encoding/json`.
* A command returns the content of the file when it ends together with the way it
  ended: normally, by `os.Exit(1)`, or by a run-time panic (an index or a slice
  bound out of range).
* `strconv.Atoi` and `strconv.Itoa` are defined here.  The functions of the `time`
  package and of `timediff` are a parameter, `Env`, of every command that calls
  them, and what `encoding/json` does with a timestamp and a string is a
  parameter, `JSONLib`; `goEnv` and `goJSON` are instances to evaluate the
  commands with.
* Every call of `time.Now()` is a separate argument of the command that makes it,
  and so is every answer the user gives to a prompt.
* The table `tasks` of the relational store is the list of its rows; failures of
  the file system and of the database driver are not modelled.
-/

namespace TasksCli

/-! ## strconv.Atoi and strconv.Itoa -/

/-- Value of an ASCII decimal digit, `none` for any other character. -/
def digitVal (c : Char) : Option Nat :=
  if 48 ≤ c.toNat ∧ c.toNat ≤ 57 then some (c.toNat - 48) else none

/-- Reads a run of decimal digits, most significant first, onto an accumulator. -/
def parseDigits : List Char → Nat → Option Nat
  | [], acc => some acc
  | c :: cs, acc =>
    match digitVal c with
    | none => none
    | some d => parseDigits cs (acc * 10 + d)

/-- Largest value of Go's `int` on a 64-bit platform. -/
def maxInt : Int := 9223372036854775807

/-- Smallest value of Go's `int` on a 64-bit platform. -/
def minInt : Int := -9223372036854775808

/-- Unsigned part of `strconv.Atoi`: at least one digit, digits only. -/
def parseMagnitude (cs : List Char) : Option Nat :=
  if cs = [] then none else parseDigits cs 0

/-- Go's `strconv.Atoi`: an optional sign, then decimal digits, within the
range of `int`; `none` stands for the returned error. -/
def atoi (s : String) : Option Int :=
  match s.data with
  | [] => none
  | c :: cs =>
    if c = '-' then
      match parseMagnitude cs with
      | none => none
      | some n => if -(n : Int) < minInt then none else some (-(n : Int))
    else if c = '+' then
      match parseMagnitude cs with
      | none => none
      | some n => if maxInt < (n : Int) then none else some (n : Int)
    else
      match parseMagnitude (c :: cs) with
      | none => none
      | some n => if maxInt < (n : Int) then none else some (n : Int)

/-- The ASCII character of a decimal digit. -/
def digitChar (d : Nat) : Char := Char.ofNat (48 + d)

/-- Decimal digits of `n` pushed in front of `acc`, by repeated division. -/
def digitsCore : Nat → Nat → List Char → List Char
  | 0, _, acc => acc
  | fuel + 1, n, acc =>
    if n / 10 = 0 then digitChar (n % 10) :: acc
    else digitsCore fuel (n / 10) (digitChar (n % 10) :: acc)

/-- Decimal digits of a natural number, most significant first. -/
def natToDigits (n : Nat) : List Char := digitsCore (n + 1) n []

/-- Go's `strconv.Itoa`. -/
def itoa (n : Int) : String :=
  match n with
  | Int.ofNat m => String.mk (natToDigits m)
  | Int.negSucc m => String.mk ('-' :: natToDigits (m + 1))

/-- Go's `utils.MustAtoi` (pkg/utils/atoi.go): `strconv.Atoi`, with 0 on error. -/
def MustAtoi (s : String) : Int :=
  match atoi s with
  | none => 0
  | some val => val

/-- How the digit loop of `strconv.ParseUint` ends in base 10: with the value, at a
byte that is not a digit, or at the first digit that overflows 64 bits. -/
inductive Scanned where
  | value (n : Nat)
  | syntaxError
  | rangeError
  deriving DecidableEq, Repr

/-- The digit loop of `strconv.ParseUint` in base 10 with 64 bits, `n` being the
number read so far: it returns at the first byte that is not a digit, and at the
first digit with which `n*10` or `n*10 + d` passes the largest `uint64`. -/
def scanDigits : List Char → Nat → Scanned
  | [], n => .value n
  | c :: cs, n =>
    match digitVal c with
    | none => .syntaxError
    | some d =>
      if 1844674407370955162 ≤ n then .rangeError
      else if 18446744073709551615 < n * 10 + d then .rangeError
      else scanDigits cs (n * 10 + d)

/-- The `int` that `strconv.Atoi` returns, also next to an error: the number when
there is no error, 0 with a syntax error, and with a range error the bound of
`int` on the side of the sign.  It is what a caller that discards the error goes
on with. -/
def atoiValue (s : String) : Int :=
  match s.data with
  | [] => 0
  | c :: cs =>
    let neg : Bool := decide (c = '-')
    let digits := if c = '-' ∨ c = '+' then cs else c :: cs
    if digits = [] then 0
    else
      match scanDigits digits 0 with
      | .syntaxError => 0
      | .rangeError => if neg then minInt else maxInt
      | .value un =>
        if neg = false ∧ 9223372036854775808 ≤ un then maxInt
        else if neg = true ∧ 9223372036854775808 < un then minInt
        else if neg then -(un : Int) else (un : Int)

/-! ## Time: Go's `time` package and `timediff`, as far as the commands use them -/

/-- An instant in UTC, broken down the way `Time.Date` and `Time.Clock` report it. -/
structure Time where
  year : Nat
  month : Nat
  day : Nat
  hour : Nat
  minute : Nat
  second : Nat
  nano : Nat
  deriving DecidableEq, Repr

/-- Go's zero `time.Time` (0001-01-01 00:00:00 UTC): the value `time.Parse`
returns next to an error, which some callers discard. -/
def zeroTime : Time := ⟨1, 1, 1, 0, 0, 0, 0⟩

/-- The library functions the commands call on timestamps.  They are not part of
the repository, so the commands are embedded relative to them. -/
structure Env where
  /-- `t.UTC().String()`, the rendering stored in the flat file. -/
  render : Time → String
  /-- `time.Parse("2006-01-02 15:04:05.999999999 +0000 UTC", s)`; `none` is the error. -/
  parseStamp : String → Option Time
  /-- `time.Parse(time.RFC3339, s)`; `none` is the error. -/
  parseRFC3339 : String → Option Time
  /-- `timediff.TimeDiff(t)`: the distance of `t` from now in words, for display. -/
  timeDiff : Time → String

/-- Decimal digits of `n`, padded with zeros on the left to `width`. -/
def padDigits (width n : Nat) : List Char :=
  List.replicate (width - (natToDigits n).length) '0' ++ natToDigits n

/-- Drops the zeros at the end of a digit string. -/
def trimZeros (cs : List Char) : List Char :=
  (cs.reverse.dropWhile (fun c => c = '0')).reverse

/-- Fractional seconds as `.999999999` prints them: nothing for zero, else the
nine digits without trailing zeros. -/
def fracDigits (nano : Nat) : List Char :=
  if nano = 0 then [] else '.' :: trimZeros (padDigits 9 nano)

/-- Date and clock part, `2006-01-02` `sep` `15:04:05`. -/
def dateClock (sep : Char) (t : Time) : List Char :=
  padDigits 4 t.year ++ '-' :: padDigits 2 t.month ++ '-' :: padDigits 2 t.day ++
    sep :: padDigits 2 t.hour ++ ':' :: padDigits 2 t.minute ++ ':' :: padDigits 2 t.second

/-- `Time.String` of a UTC time: layout `2006-01-02 15:04:05.999999999 -0700 MST`. -/
def goString (t : Time) : String :=
  String.mk (dateClock ' ' t ++ fracDigits t.nano ++ " +0000 UTC".data)

/-- `Time.Format(time.RFC3339Nano)` of a UTC time, as `encoding/json` writes it. -/
def rfc3339String (t : Time) : String :=
  String.mk (dateClock 'T' t ++ fracDigits t.nano ++ ['Z'])

/-- Exactly `k` digits read off the front. -/
def takeNum (k : Nat) (cs : List Char) : Option (Nat × List Char) :=
  if cs.length < k then none
  else match parseDigits (cs.take k) 0 with
    | none => none
    | some n => some (n, cs.drop k)

/-- One expected character read off the front. -/
def takeChar (c : Char) (cs : List Char) : Option (List Char) :=
  match cs with
  | [] => none
  | d :: rest => if d = c then some rest else none

/-- The digits at the front of `cs`, and what follows them. -/
def spanDigits : List Char → List Char × List Char
  | [] => ([], [])
  | c :: cs =>
    match digitVal c with
    | none => ([], c :: cs)
    | some _ => ((spanDigits cs).1.cons c, (spanDigits cs).2)

/-- Optional fractional seconds: a period and up to nine digits, in nanoseconds. -/
def takeFrac (cs : List Char) : Option (Nat × List Char) :=
  match takeChar '.' cs with
  | none => some (0, cs)
  | some rest =>
    let ds := (spanDigits rest).1
    if ds = [] ∨ 9 < ds.length then none
    else match parseDigits ds 0 with
      | none => none
      | some n => some (n * 10 ^ (9 - ds.length), (spanDigits rest).2)

/-- Length of a month in the Gregorian calendar. -/
def daysIn (month year : Nat) : Nat :=
  if month = 2 then
    (if year % 4 = 0 ∧ (year % 100 ≠ 0 ∨ year % 400 = 0) then 29 else 28)
  else if month = 4 ∨ month = 6 ∨ month = 9 ∨ month = 11 then 30 else 31

/-- Range checks of `time.Parse` on the fields it has read. -/
def validFields (t : Time) : Bool :=
  decide (1 ≤ t.month) && decide (t.month ≤ 12) && decide (1 ≤ t.day) &&
    decide (t.day ≤ daysIn t.month t.year) && decide (t.hour < 24) &&
    decide (t.minute < 60) && decide (t.second < 60)

/-- A number of `k` digits followed by the character `c`. -/
def takeField (k : Nat) (c : Char) (cs : List Char) : Option (Nat × List Char) :=
  match takeNum k cs with
  | none => none
  | some (n, rest) =>
    match takeChar c rest with
    | none => none
    | some rest1 => some (n, rest1)

/-- Reads `15:04:05[.fraction]` followed by `suffix`. -/
def parseClock (suffix : List Char) (year month day : Nat) (cs : List Char) : Option Time :=
  match takeField 2 ':' cs with
  | none => none
  | some (hour, cs1) =>
    match takeField 2 ':' cs1 with
    | none => none
    | some (minute, cs2) =>
      match takeNum 2 cs2 with
      | none => none
      | some (second, cs3) =>
        match takeFrac cs3 with
        | none => none
        | some (nano, cs4) =>
          if cs4 = suffix then some ⟨year, month, day, hour, minute, second, nano⟩ else none

/-- Reads `2006-01-02` `sep` `15:04:05[.fraction]` followed by `suffix`, with the
range checks of `time.Parse`. -/
def parseDateClock (sep : Char) (suffix : List Char) (cs : List Char) : Option Time :=
  match takeField 4 '-' cs with
  | none => none
  | some (year, cs1) =>
    match takeField 2 '-' cs1 with
    | none => none
    | some (month, cs2) =>
      match takeField 2 sep cs2 with
      | none => none
      | some (day, cs3) =>
        match parseClock suffix year month day cs3 with
        | none => none
        | some t => if validFields t then some t else none

/-- A reference instance of the library: `render` prints as `Time.String` does for
years 0 to 9999; `parseStamp` and `parseRFC3339` read the canonical UTC spelling
of their layout (what `Time.String` and `Time.Format(time.RFC3339Nano)` print),
which `time.Parse` reads to the same instant; `timeDiff` is the phrase
`timediff` prints for an instant a few seconds in the past. -/
def goEnv : Env where
  render := goString
  parseStamp := fun s => parseDateClock ' ' " +0000 UTC".data s.data
  parseRFC3339 := fun s => parseDateClock 'T' ['Z'] s.data
  timeDiff := fun _ => "a few seconds ago"

/-! ## The flat file -/

/-- One record of the delimited file: its fields. -/
abbrev Record := List String

/-- The records of `tasks.csv`, header first; the empty file has none. -/
abbrev CSVFile := List Record

/-- The header row every writer of the flat file uses. -/
def csvHeaders : Record :=
  ["ID", "TITLE", "DESCRIPTION", "STATUS", "CREATED AT", "UPDATED AT"]

/-- How a piece of Go code ends: normally with a value, by `os.Exit(1)` after
printing `message`, or by a run-time panic. -/
inductive Outcome (ρ : Type) where
  | done (value : ρ)
  | exit (message : String)
  | crash (message : String)
  deriving DecidableEq, Repr

/-- A command run on the flat file: the content of the file when the command
ends, and how it ended. -/
structure Run (ρ : Type) where
  file : CSVFile
  result : Outcome ρ
  deriving DecidableEq, Repr

/-- The rows after the header. -/
def dataRows (file : CSVFile) : List Record := file.drop 1

/-- The `Task` of cmd/create.go: what the create command collects. -/
structure cmd.Task where
  Title : String
  Description : String
  deriving DecidableEq, Repr

/-- Go's `int` arithmetic: the result of an addition, wrapped to 64 bits. -/
def wrapInt (n : Int) : Int :=
  (n + 9223372036854775808) % 18446744073709551616 - 9223372036854775808

/-- The record `saveToCSVFile` appends (create.go:177); `t1` and `t2` are what the
two calls of `time.Now()` on that line return. -/
def newRecord (E : Env) (nextId : Int) (task : cmd.Task) (t1 t2 : Time) : Record :=
  [itoa nextId, task.Title, task.Description, "pending", E.render t1, E.render t2]

/-- Go's `saveToCSVFile` (cmd/create.go:110-183), on the content of the file it
has opened (a missing file is created empty). -/
def saveToCSVFile (E : Env) (file : CSVFile) (task : cmd.Task) (t1 t2 : Time) : Run Unit :=
  if file.length ≤ 0 then
    -- stat.Size() <= 0: the header is written and flushed, then the record
    ⟨[csvHeaders] ++ [newRecord E 1 task t1 t2], .done ()⟩
  else
    let records := file
    let csvRecords := records.drop 1
    if csvRecords.length > 0 then
      match csvRecords[records.length - 1]? with
      | none => ⟨file, .crash "index out of range"⟩
      | some lastRecord =>
        match lastRecord[0]? with
        | none => ⟨file, .crash "index out of range"⟩
        | some first =>
          match atoi first with
          | none => ⟨file, .exit "Failed to parse the last record index"⟩
          | some lastIndex =>
            ⟨file ++ [newRecord E (wrapInt (lastIndex + 1)) task t1 t2], .done ()⟩
    else
      ⟨file ++ [newRecord E 1 task t1 t2], .done ()⟩

/-- The `DBTask` of cmd/list.go: a task as the listing shows it. -/
structure DBTask where
  ID : Int
  Title : String
  Description : String
  Status : String
  CreatedAt : String
  UpdatedAt : String
  deriving DecidableEq, Repr

/-- What one pass of the loop of `getDataFromCSVFile` does with a row. -/
inductive RowStep where
  | skip
  | stop
  | fail (message : String)
  | task (t : DBTask)
  deriving DecidableEq, Repr

/-- The body of the loop of `getDataFromCSVFile` (list.go:227-256) on one row:
a row of fewer than six columns is passed over, an ID that is not an integer
breaks out of the loop, a timestamp `time.Parse` rejects ends the process, and
otherwise the row becomes a `DBTask` whose timestamps are `timediff` phrases. -/
def decodeRow (E : Env) (content : Record) : RowStep :=
  match content with
  | c0 :: c1 :: c2 :: c3 :: c4 :: c5 :: _ =>
    match atoi c0 with
    | none => .stop
    | some id =>
      match E.parseStamp c4 with
      | none => .fail "Error parsing created_at"
      | some parsedCreatedDate =>
        match E.parseStamp c5 with
        | none => .fail "Error parsing updated_at"
        | some parsedUpdatedDate =>
          .task ⟨id, c1, c2, c3, E.timeDiff parsedCreatedDate, E.timeDiff parsedUpdatedDate⟩
  | _ => .skip

/-- The loop of `getDataFromCSVFile` (list.go:226-257) over the rows after the
header, `tasks` being the slice built so far. -/
def decodeRows (E : Env) : List Record → List DBTask → Outcome (List DBTask)
  | [], tasks => .done tasks
  | content :: rest, tasks =>
    match decodeRow E content with
    | .skip => decodeRows E rest tasks
    | .stop => .done tasks
    | .fail message => .exit message
    | .task t => decodeRows E rest (tasks ++ [t])

/-- Go's `getDataFromCSVFile` (cmd/list.go:222-260). -/
def getDataFromCSVFile (E : Env) (csvData : List Record) : Outcome (List DBTask) :=
  match csvData with
  | [] => .crash "slice bounds out of range [1:0]"  -- csvData[1:]
  | _ :: restOfContent => decodeRows E restOfContent []

/-- What `deleteFromCSVFile` tells the user when it returns. -/
inductive DeleteReport where
  | noTasksFound
  | noTaskWithID (id : Int)
  | deleted (id : Int)
  deriving DecidableEq, Repr

/-- The record `deleteFromCSVFile` writes for a task it keeps (delete.go:155-162). -/
def taskRecord (task : DBTask) : Record :=
  [itoa task.ID, task.Title, task.Description, task.Status, task.CreatedAt, task.UpdatedAt]

/-- Go's `deleteFromCSVFile` (cmd/delete.go:95-187), on the records read from the
file it has opened (a missing file is created empty). -/
def deleteFromCSVFile (E : Env) (file : CSVFile) (id : Int) : Run DeleteReport :=
  match getDataFromCSVFile E file with
  | .exit message => ⟨file, .exit message⟩
  | .crash message => ⟨file, .crash message⟩
  | .done data =>
    if data.length ≤ 0 then ⟨file, .done .noTasksFound⟩
    else
      let newCSVData := data.filter (fun content => decide (content.ID ≠ id))
      let found := data.any (fun content => decide (content.ID = id))
      if found = false then ⟨file, .done (.noTaskWithID id)⟩
      else ⟨csvHeaders :: newCSVData.map taskRecord, .done (.deleted id)⟩

/-- Go's `record[i] = v`: `none` is the index-out-of-range panic. -/
def setField (record : Record) (i : Nat) (v : String) : Option Record :=
  if i < record.length then some (record.set i v) else none

/-- The ID `editTaskInCSV` reads off a row: `recordID, _ := strconv.Atoi(record[0])`
(edit.go:162), the value `strconv.Atoi` returns with its error discarded; `none`
is the panic of `record[0]`. -/
def recordID (record : Record) : Option Int :=
  match record[0]? with
  | none => none
  | some first => some (atoiValue first)

/-- The assignments `editTaskInCSV` makes to the matching row (edit.go:165-171). -/
def editRecord (E : Env) (record : Record) (title status : String) (now : Time) :
    Option Record :=
  match (if title ≠ "" then setField record 1 title else some record) with
  | none => none
  | some r1 =>
    match (if status ≠ "" then setField r1 3 status else some r1) with
    | none => none
    | some r3 => setField r3 5 (E.render now)

/-- The loop of `editTaskInCSV` (edit.go:157-175) over the rows after the header:
the rows with the first match updated, or `none` when no row matches. -/
def editRows (E : Env) (id : Int) (title status : String) (now : Time) :
    List Record → Outcome (Option (List Record))
  | [] => .done none
  | record :: rest =>
    match recordID record with
    | none => .crash "index out of range"
    | some rid =>
      if rid = id then
        match editRecord E record title status now with
        | none => .crash "index out of range"
        | some updated => .done (some (updated :: rest))
      else
        match editRows E id title status now rest with
        | .done (some rows) => .done (some (record :: rows))
        | other => other

/-- Go's `editTaskInCSV` (cmd/edit.go:123-192), on the records read from the file
it has opened. -/
def editTaskInCSV (E : Env) (file : CSVFile) (id : Int) (title status : String) (now : Time) :
    Run Unit :=
  match editRows E id title status now (file.drop 1) with
  | .crash message => ⟨file, .crash message⟩
  | .exit message => ⟨file, .exit message⟩
  | .done none => ⟨file, .exit "Task with ID %d not found in CSV file."⟩
  | .done (some rows) => ⟨file.take 1 ++ rows, .done ()⟩

/-! ## The relational store and the import command -/

/-- The `Task` of models/task.go: a candidate decoded from an import document. -/
structure models.Task where
  ID : Int
  Title : String
  Description : String
  Status : String
  CreatedAt : Time
  UpdatedAt : Time
  deriving DecidableEq, Repr

/-- A row of the table `tasks` (pkg/database/db.go:50-57). -/
structure Row where
  id : Int
  title : String
  description : String
  status : String
  created_at : Time
  updated_at : Time
  deriving DecidableEq, Repr

/-- The rows of the table `tasks`, in the order they were inserted. -/
abbrev Store := List Row

/-- The query `SELECT EXISTS(SELECT 1 FROM tasks WHERE id = ?)`. -/
def idExists (db : Store) (id : Int) : Bool :=
  db.any (fun row => decide (row.id = id))

/-- The statement `INSERT INTO tasks (id, ...) VALUES (?, ...)`: `none` is the
primary-key error the store raises for an id it already holds. -/
def insertRow (db : Store) (row : Row) : Option Store :=
  if idExists db row.id then none else some (db ++ [row])

/-- How an import ends: it returns a Go `error` (`none` for `nil`), or panics. -/
inductive ImportEnd where
  | returned (err : Option String)
  | crash (message : String)
  deriving DecidableEq, Repr

/-- An import run: the table when the import ends, and how it ended. -/
structure ImportRun where
  db : Store
  result : ImportEnd
  deriving DecidableEq, Repr

/-- The loop of `importFromJSON` (import.go:91-109) over the decoded tasks. -/
def importTasks : List models.Task → Store → ImportRun
  | [], db => ⟨db, .returned none⟩
  | task :: rest, db =>
    if idExists db task.ID then
      importTasks rest db  -- "already exists, skipping import..."
    else
      match insertRow db ⟨task.ID, task.Title, task.Description, task.Status,
          task.CreatedAt, task.UpdatedAt⟩ with
      | none => ⟨db, .returned (some "error inserting task into database")⟩
      | some db1 => importTasks rest db1

/-- Go's `importFromJSON` (cmd/import.go:76-112); `decoded` is what
`decoder.Decode(&tasks)` yields for the document, `none` when it returns an error
(or the file cannot be opened). -/
def importFromJSON (decoded : Option (List models.Task)) (db : Store) : ImportRun :=
  match decoded with
  | none => ⟨db, .returned (some "error decoding JSON file")⟩
  | some tasks => importTasks tasks db

/-- `createdAt, _ := time.Parse(time.RFC3339, s)`: the error is discarded, which
leaves the zero time. -/
def parseOrZero (E : Env) (s : String) : Time :=
  match E.parseRFC3339 s with
  | none => zeroTime
  | some t => t

/-- The loop of `importFromCSV` (import.go:129-155) over the records after the
header. -/
def importRecords (E : Env) : List Record → Store → ImportRun
  | [], db => ⟨db, .returned none⟩
  | record :: rest, db =>
    match record with
    | c0 :: c1 :: c2 :: c3 :: c4 :: c5 :: _ =>
      let createdAt := parseOrZero E c4
      let updatedAt := parseOrZero E c5
      if idExists db (MustAtoi c0) then
        importRecords E rest db  -- "already exists, skipping import..."
      else
        match insertRow db ⟨MustAtoi c0, c1, c2, c3, createdAt, updatedAt⟩ with
        | none => ⟨db, .returned (some "error inserting task into database")⟩
        | some db1 => importRecords E rest db1
    | _ => ⟨db, .crash "index out of range"⟩  -- record[4] or record[5]

/-- Go's `importFromCSV` (cmd/import.go:115-158); `read` is what
`reader.ReadAll()` yields for the document, `none` when it returns an error (or
the file cannot be opened). -/
def importFromCSV (E : Env) (read : Option (List Record)) (db : Store) : ImportRun :=
  match read with
  | none => ⟨db, .returned (some "error reading CSV file")⟩
  | some records => importRecords E (records.drop 1) db

/-! ## Sessions on the flat file -/

/-- The ID column of a row, read as `strconv.Atoi` reads it. -/
def rowID (row : Record) : Option Int :=
  match row[0]? with
  | none => none
  | some first => atoi first

/-- The IDs of the data rows, in file order. -/
def rowIDs (file : CSVFile) : List (Option Int) := (dataRows file).map rowID

/-- A command of a session on the flat file: a create with the task and the two
clock readings it takes, or a delete with its id. -/
inductive Op where
  | create (task : cmd.Task) (t1 t2 : Time)
  | delete (id : Int)
  deriving DecidableEq, Repr

/-- The content of the file after the commands have run one after the other. -/
def runOps (E : Env) : CSVFile → List Op → CSVFile
  | file, [] => file
  | file, .create task t1 t2 :: ops => runOps E (saveToCSVFile E file task t1 t2).file ops
  | file, .delete id :: ops => runOps E (deleteFromCSVFile E file id).file ops

/-- The ID a create was assigned: the ID of the last row of the file it leaves,
when it ended normally. -/
def createdID (run : Run Unit) : Option Int :=
  match run.result with
  | .done _ =>
    match run.file.getLast? with
    | none => none
    | some row => rowID row
  | _ => none

/-- The IDs assigned to the creates of a session, in order (`none` for a create
that did not end normally). -/
def assignedIDs (E : Env) : CSVFile → List Op → List (Option Int)
  | _, [] => []
  | file, .create task t1 t2 :: ops =>
    createdID (saveToCSVFile E file task t1 t2) ::
      assignedIDs E (saveToCSVFile E file task t1 t2).file ops
  | file, .delete id :: ops => assignedIDs E (deleteFromCSVFile E file id).file ops

/-! ## Export, and the JSON documents it writes -/

/-- What `encoding/json` does with the leaves of a document: it is not part of the
repository, so export, import and list are embedded relative to it. -/
structure JSONLib where
  /-- `Time.MarshalJSON`, without the quotes: the RFC 3339 text of an instant;
  `none` is the error (a year outside 0 to 9999). -/
  marshalTime : Time → Option String
  /-- `Time.UnmarshalJSON` on the text between the quotes; `none` is the error. -/
  unmarshalTime : String → Option Time
  /-- The JSON string literal `encoding/json` writes for a Go string, quotes
  included. -/
  quote : String → String

/-- The literal of a string without control characters and without the characters
`encoding/json` writes as `\u` escapes: quotes and backslashes get a backslash. -/
def quoteChars : List Char → List Char
  | [] => []
  | c :: cs =>
    if c = Char.ofNat 34 ∨ c = Char.ofNat 92 then Char.ofNat 92 :: c :: quoteChars cs
    else c :: quoteChars cs

/-- A reference instance of `JSONLib`: times are written as
`Time.Format(time.RFC3339Nano)` prints them in UTC and read back from that
spelling; `quote` is exact for text made of printable ASCII other than the
characters `<`, `>` and `&`. -/
def goJSON : JSONLib where
  marshalTime := fun t => if t.year ≤ 9999 then some (rfc3339String t) else none
  unmarshalTime := fun s => parseDateClock 'T' ['Z'] s.data
  quote := fun s => String.mk (Char.ofNat 34 :: quoteChars s.data ++ [Char.ofNat 34])

/-- One object of a JSON document of tasks: the six members named by the tags of
`models.Task` (models/task.go:7-12), the timestamps as the text that stands in
the document.  The syntax of the document is the business of `encoding/json`. -/
structure TaskObject where
  id : Int
  title : String
  description : String
  status : String
  created_at : String
  updated_at : String
  deriving DecidableEq, Repr

/-- What `json.Encoder.Encode` makes of one `models.Task`. -/
def encodeTask (J : JSONLib) (task : models.Task) : Option TaskObject :=
  match J.marshalTime task.CreatedAt with
  | none => none
  | some created =>
    match J.marshalTime task.UpdatedAt with
    | none => none
    | some updated =>
      some ⟨task.ID, task.Title, task.Description, task.Status, created, updated⟩

/-- What `json.Encoder.Encode` makes of a slice of `models.Task`: `none` is the
error, in which case nothing is written. -/
def encodeTasks (J : JSONLib) : List models.Task → Option (List TaskObject)
  | [] => some []
  | task :: rest =>
    match encodeTask J task with
    | none => none
    | some obj =>
      match encodeTasks J rest with
      | none => none
      | some objs => some (obj :: objs)

/-- What `json.Decoder.Decode` makes of one object of the document. -/
def decodeTask (J : JSONLib) (obj : TaskObject) : Option models.Task :=
  match J.unmarshalTime obj.created_at with
  | none => none
  | some created =>
    match J.unmarshalTime obj.updated_at with
    | none => none
    | some updated =>
      some ⟨obj.id, obj.title, obj.description, obj.status, created, updated⟩

/-- What `decoder.Decode(&tasks)` makes of the objects of a document: `none` is
the error. -/
def decodeTasks (J : JSONLib) : List TaskObject → Option (List models.Task)
  | [] => some []
  | obj :: rest =>
    match decodeTask J obj with
    | none => none
    | some task =>
      match decodeTasks J rest with
      | none => none
      | some tasks => some (task :: tasks)

/-- What `decoder.Decode(&tasks)` makes of a file: `none` for a file that does not
hold a list of task objects (the empty file included). -/
def decodeDocument (J : JSONLib) (document : Option (List TaskObject)) :
    Option (List models.Task) :=
  match document with
  | none => none
  | some objs => decodeTasks J objs

/-- What an export leaves: the document in the file it created (`none`: the file
is empty) and the line it printed. -/
structure ExportRun where
  document : Option (List TaskObject)
  message : String
  deriving DecidableEq, Repr

/-- Go's `exportToJSON` (cmd/export.go:165-182). -/
def exportToJSON (J : JSONLib) (tasks : List models.Task) : ExportRun :=
  match encodeTasks J tasks with
  | none => ⟨none, "Error writing to JSON file"⟩
  | some objs => ⟨some objs, "Tasks exported successfully"⟩

/-- The loop of `fetchTasksFromCSV` (export.go:143-160) over the records after the
header. -/
def fetchRecords (E : Env) : List Record → List models.Task → Outcome (List models.Task)
  | [], tasks => .done tasks
  | record :: rest, tasks =>
    match record with
    | c0 :: c1 :: c2 :: c3 :: c4 :: c5 :: _ =>
      let createdAt := parseOrZero E c4
      let updatedAt := parseOrZero E c5
      fetchRecords E rest (tasks ++ [⟨MustAtoi c0, c1, c2, c3, createdAt, updatedAt⟩])
    | _ => .crash "index out of range"  -- record[4] or record[5]

/-- Go's `fetchTasksFromCSV` (cmd/export.go:124-162); `read` is what
`reader.ReadAll()` yields for `tasks.csv`, `none` when it returns an error (or
the file cannot be opened), in which case the function returns `nil`. -/
def fetchTasksFromCSV (E : Env) (read : Option (List Record)) : Outcome (List models.Task) :=
  match read with
  | none => .done []
  | some records => fetchRecords E (records.drop 1) []

/-! ## List -/

/-- One element of the array `json.MarshalIndent(data, "", " ")` prints. -/
def marshalObject (J : JSONLib) (task : DBTask) : String :=
  " \x7b\n  \"id\": " ++ itoa task.ID ++
    ",\n  \"title\": " ++ J.quote task.Title ++
    ",\n  \"description\": " ++ J.quote task.Description ++
    ",\n  \"status\": " ++ J.quote task.Status ++
    ",\n  \"created_at\": " ++ J.quote task.CreatedAt ++
    ",\n  \"updated_at\": " ++ J.quote task.UpdatedAt ++ "\n \x7d"

/-- Go's `json.MarshalIndent(data, "", " ")` on a slice of `DBTask` that is not
`nil` (both callers build it with `make([]DBTask, 0)`): `[]` when it is empty. -/
def marshalIndent (J : JSONLib) (data : List DBTask) : String :=
  match data with
  | [] => "[]"
  | _ :: _ => "[\n" ++ ",\n".intercalate (data.map (marshalObject J)) ++ "\n]"

/-- What a listing prints: the JSON text, or the table of the tasks (laid out by
`text/tabwriter`). -/
inductive Printed where
  | json (text : String)
  | table (rows : List DBTask)
  deriving DecidableEq, Repr

/-- Go's `formatInJSON` (cmd/list.go:158-166). -/
def formatInJSON (J : JSONLib) (data : List DBTask) : Printed :=
  .json (marshalIndent J data)

/-- Go's `formatInTable` (cmd/list.go:132-156). -/
def formatInTable (data : List DBTask) : Printed :=
  .table data

/-- Go's `listFromCSVFile` (cmd/list.go:90-130), on the records read from the file
it has opened (a missing file is created empty). -/
def listFromCSVFile (E : Env) (J : JSONLib) (file : CSVFile) (format : String) :
    Outcome Printed :=
  match getDataFromCSVFile E file with
  | .exit message => .exit message
  | .crash message => .crash message
  | .done data =>
    if format = "json" then .done (formatInJSON J data) else .done (formatInTable data)

/-! ## The relational adapter -/

/-- A statement run on the table: the table afterwards, and how the Go function
that ran it ended. -/
structure DBRun (ρ : Type) where
  db : Store
  result : Outcome ρ
  deriving DecidableEq, Repr

/-- Go's `saveToSqliteDB` (cmd/create.go:99-108): `INSERT INTO tasks(title,
description)`; `rowid` is the id `AUTOINCREMENT` assigns and `now` the value of
`CURRENT_TIMESTAMP`; the status is the column default. -/
def saveToSqliteDB (db : Store) (task : cmd.Task) (rowid : Int) (now : Time) : DBRun Unit :=
  match insertRow db ⟨rowid, task.Title, task.Description, "pending", now, now⟩ with
  | none => ⟨db, .exit "Failed to create the task"⟩
  | some db1 => ⟨db1, .done ()⟩

/-- What `deleteFromDB` tells the user. -/
inductive DBDeleteReport where
  | deleted (id : Int)
  | noTaskFound (id : Int)
  deriving DecidableEq, Repr

/-- Go's `deleteFromDB` (cmd/delete.go:68-93): `DELETE FROM tasks WHERE id=?`. -/
def deleteFromDB (db : Store) (id : Int) : DBRun DBDeleteReport :=
  let rowsAffected := (db.filter (fun row => decide (row.id = id))).length
  if rowsAffected > 0 then
    ⟨db.filter (fun row => decide (row.id ≠ id)), .done (.deleted id)⟩
  else
    ⟨db.filter (fun row => decide (row.id ≠ id)), .done (.noTaskFound id)⟩

/-- promptui's `Prompt.Run` with a `Validate` function: `entered` is the line the
user submits, `none` when the prompt is aborted.  A line that `Validate`
rejects is never returned: the prompt shows the error of `Validate`, and the
caller sees an error. -/
def runPrompt (validate : String → Option String) (entered : Option String) :
    Except String String :=
  match entered with
  | none => .error "prompt aborted"
  | some line =>
    match validate line with
    | some err => .error err
    | none => .ok line

/-- Go's `validateIDInput` (cmd/edit.go:195-201): the error, if any. -/
def validateIDInput (input : String) : Option String :=
  match atoi input with
  | none => some "invalid id"
  | some _ => none

/-- What the user answers to the prompts of `editTaskInDatabase`: the line entered
for the id; the title the prompt returns (empty when it fails); the item the
status selection returns, one of its three items (empty when it fails). -/
structure EditPrompts where
  id : Option String
  title : String
  status : String
  deriving DecidableEq, Repr

/-- The statement `UPDATE tasks SET title = ?, status = ?, updated_at = ? WHERE
id = ?`. -/
def updateRow (db : Store) (id : Int) (title status : String) (now : Time) : Store :=
  db.map (fun row =>
    if row.id = id then
      ⟨row.id, title, row.description, status, row.created_at, now⟩
    else row)

/-- The part of `editTaskInDatabase` after the id is known (edit.go:78-120). -/
def editKnownTask (db : Store) (id : Int) (title status : String) (asked : EditPrompts)
    (now : Time) : DBRun Unit :=
  let title1 := if title = "" then asked.title else title
  let status1 := if status = "" then asked.status else status
  match db.find? (fun row => decide (row.id = id)) with
  | none => ⟨db, .exit "Task with ID %d not found"⟩
  | some current =>
    let title2 := if title1 = "" then current.title else title1
    let status2 := if status1 = "" then current.status else status1
    ⟨updateRow db id title2 status2 now, .done ()⟩

/-- Go's `editTaskInDatabase` (cmd/edit.go:60-121). -/
def editTaskInDatabase (db : Store) (id : Int) (title status : String) (asked : EditPrompts)
    (now : Time) : DBRun Unit :=
  if id = 0 then
    match runPrompt validateIDInput asked.id with
    | .error err => ⟨db, .exit err⟩
    | .ok idInput => editKnownTask db (atoiValue idInput) title status asked now
  else editKnownTask db id title status asked now

/-! ## The create command -/

/-- The `Validate` function of the title prompt (create.go:32-37): the error, if
any. -/
def validateTitle (input : String) : Option String :=
  if input.length = 0 then some "project title cannot be empty" else none

/-- What the user gives the create command: the positional arguments (at most
one), the line entered at the title prompt, the line entered at the description
prompt and the item chosen for the destination (`none`: the prompt fails). -/
structure CreateInput where
  args : List String
  title : Option String
  description : Option String
  saveOption : Option String
  deriving DecidableEq, Repr

/-- What a command leaves in the two backends, and how it ended. -/
structure CmdRun where
  file : CSVFile
  db : Store
  result : Outcome Unit
  deriving DecidableEq, Repr

/-- The title `createCmd` works with (create.go:26-47): the positional argument
when there is one, else what the title prompt returns. -/
def createTitle (input : CreateInput) : Except String String :=
  match input.args with
  | first :: _ => .ok first
  | [] => runPrompt validateTitle input.title

/-- The `Run` function of `createCmd` (cmd/create.go:22-87); `t1`, `t2` and
`rowid`, `now` are handed on to `saveToCSVFile` and `saveToSqliteDB`. -/
def createCmd (E : Env) (input : CreateInput) (file : CSVFile) (db : Store)
    (t1 t2 : Time) (rowid : Int) (now : Time) : CmdRun :=
  match createTitle input with
  | .error err => ⟨file, db, .exit err⟩
  | .ok title =>
    match input.description with
    | none => ⟨file, db, .exit "prompt aborted"⟩
    | some description =>
      match input.saveOption with
      | none => ⟨file, db, .exit "prompt aborted"⟩
      | some saveOption =>
        if saveOption = "CSV File" then
          ⟨(saveToCSVFile E file ⟨title, description⟩ t1 t2).file, db,
            (saveToCSVFile E file ⟨title, description⟩ t1 t2).result⟩
        else
          ⟨file, (saveToSqliteDB db ⟨title, description⟩ rowid now).db,
            (saveToSqliteDB db ⟨title, description⟩ rowid now).result⟩

/-! ## The import command -/

/-- What the user gives the import command: the positional arguments, the item
chosen at the format selection (`JSON` or `CSV`; `none`: the selection fails)
and the line entered for the file path (`none`: the prompt fails). -/
structure ImportInput where
  args : List String
  format : Option String
  filePath : Option String
  deriving DecidableEq, Repr

/-- The part of the `Run` function of `importCmd` after `format` is set
(import.go:45-71): the result carries the last line printed.  `jsonAt` and
`csvAt` give, for a path, what the decoder and the reader yield for the file
there. -/
def importWithFormat (E : Env) (format : String) (filePath : Option String)
    (jsonAt : String → Option (List models.Task)) (csvAt : String → Option (List Record))
    (db : Store) : DBRun String :=
  match filePath with
  | none => ⟨db, .done "Error during file path input"⟩
  | some path =>
    if format = "json" then
      match importFromJSON (jsonAt path) db with
      | ⟨db1, .returned none⟩ => ⟨db1, .done "Tasks imported successfully."⟩
      | ⟨db1, .returned (some _)⟩ => ⟨db1, .done "Error importing tasks"⟩
      | ⟨db1, .crash message⟩ => ⟨db1, .crash message⟩
    else if format = "csv" then
      match importFromCSV E (csvAt path) db with
      | ⟨db1, .returned none⟩ => ⟨db1, .done "Tasks imported successfully."⟩
      | ⟨db1, .returned (some _)⟩ => ⟨db1, .done "Error importing tasks"⟩
      | ⟨db1, .crash message⟩ => ⟨db1, .crash message⟩
    else ⟨db, .done "Invalid format selected."⟩

/-- The `Run` function of `importCmd` (cmd/import.go:23-72).  Without an argument
the selection is stored by `_, format, err := formatPrompt.Run()`, which declares
a new `format` inside the `else` block: the `format` the rest of the function
reads keeps its zero value, the empty string. -/
def importCmd (E : Env) (input : ImportInput)
    (jsonAt : String → Option (List models.Task)) (csvAt : String → Option (List Record))
    (db : Store) : DBRun String :=
  match input.args with
  | first :: _ =>
    if first ≠ "json" ∧ first ≠ "csv" then
      ⟨db, .done "Invalid format specified. Valid options are json or csv."⟩
    else importWithFormat E first input.filePath jsonAt csvAt db
  | [] =>
    match input.format with
    | none => ⟨db, .done "Error during format selection"⟩
    | some _ => importWithFormat E "" input.filePath jsonAt csvAt db

/-! ## The status of the stored tasks -/

/-- The three values of a status. -/
def ValidStatus (s : String) : Prop :=
  s = "pending" ∨ s = "in-progress" ∨ s = "completed"

/-- Whether a text is one of the three values can be computed. -/
instance decideValidStatus (s : String) : Decidable (ValidStatus s) := by
  unfold ValidStatus
  infer_instance

/-- Every data row of the file that has a STATUS column holds one of the three
values in it. -/
def FileStatusesValid (file : CSVFile) : Prop :=
  ∀ r ∈ dataRows file, ∀ s, r[3]? = some s → ValidStatus s

/-- Every row of the table holds one of the three values in `status`. -/
def StoreStatusesValid (db : Store) : Prop :=
  ∀ r ∈ db, ValidStatus r.status

/-- Whether the statuses of a file are valid can be computed row by row. -/
instance decideFileStatusesValid (file : CSVFile) : Decidable (FileStatusesValid file) :=
  decidable_of_iff (∀ r ∈ dataRows file, ∀ s ∈ r[3]?, ValidStatus s)
    (by simp [FileStatusesValid, Option.mem_def])

/-- Whether the statuses of a table are valid can be computed row by row. -/
instance decideStoreStatusesValid (db : Store) : Decidable (StoreStatusesValid db) := by
  unfold StoreStatusesValid
  infer_instance

/-! ## Notions used to state the round trip -/

/-- The row an import inserts for a candidate. -/
def taskRow (task : models.Task) : Row :=
  ⟨task.ID, task.Title, task.Description, task.Status, task.CreatedAt, task.UpdatedAt⟩

/-- The text `encoding/json` writes for the instant is read back to the same
instant. -/
def ReadsBack (J : JSONLib) (t : Time) : Prop :=
  (J.marshalTime t).bind J.unmarshalTime = some t

/-- Deciding `ReadsBack` is comparing two optional instants. -/
instance decideReadsBack (J : JSONLib) (t : Time) : Decidable (ReadsBack J t) := by
  unfold ReadsBack
  infer_instance

/-- The fields are those of an instant: what `Time.Date` and `Time.Clock` report
for a `time.Time`. -/
def IsInstant (t : Time) : Prop :=
  1 ≤ t.month ∧ t.month ≤ 12 ∧ 1 ≤ t.day ∧ t.day ≤ daysIn t.month t.year ∧
    t.hour < 24 ∧ t.minute < 60 ∧ t.second < 60 ∧ t.nano < 1000000000

/-- Deciding `IsInstant` is checking the ranges. -/
instance decideIsInstant (t : Time) : Decidable (IsInstant t) := by
  unfold IsInstant
  infer_instance

/-- The tasks of a list that an import into a table holding the ids `seen` inserts:
those whose id is not in `seen` and is not the id of an earlier task of the list. -/
def firstWithId : List Int → List models.Task → List models.Task
  | _, [] => []
  | seen, task :: rest =>
    if task.ID ∈ seen then firstWithId seen rest
    else task :: firstWithId (seen ++ [task.ID]) rest

/-- The (id, title, description, status) tuple of a task. -/
def taskTuple (task : models.Task) : Int × String × String × String :=
  (task.ID, task.Title, task.Description, task.Status)

/-- The (id, title, description, status) tuple of a row. -/
def rowTuple (row : Row) : Int × String × String × String :=
  (row.id, row.title, row.description, row.status)

/-! ## Sample data -/

/-- A clock reading: 2024-05-01 12:00:07.12 UTC. -/
def sampleTime : Time := ⟨2024, 5, 1, 12, 0, 7, 120000000⟩

/-- A later clock reading: 2024-05-01 12:03:00 UTC. -/
def laterTime : Time := ⟨2024, 5, 1, 12, 3, 0, 0⟩

/-- The file after `create "Buy milk"` on an empty file. -/
def oneTaskFile : CSVFile :=
  [csvHeaders,
   ["1", "Buy milk", "", "pending", "2024-05-01 12:00:07.12 +0000 UTC",
    "2024-05-01 12:00:07.12 +0000 UTC"]]

/-- A file in the adapter's format with two tasks. -/
def twoTaskFile : CSVFile :=
  [csvHeaders,
   ["1", "Buy milk", "", "pending", "2024-05-01 12:00:07.12 +0000 UTC",
    "2024-05-01 12:00:07.12 +0000 UTC"],
   ["2", "Walk dog", "park", "pending", "2024-05-01 12:03:00 +0000 UTC",
    "2024-05-01 12:03:00 +0000 UTC"]]

/-- A file whose first data row has an ID column that is not an integer, and whose
second data row has ID 0. -/
def badIdFile : CSVFile :=
  [csvHeaders,
   ["abc", "Buy milk", "", "pending", "2024-05-01 12:00:07.12 +0000 UTC",
    "2024-05-01 12:00:07.12 +0000 UTC"],
   ["0", "Walk dog", "park", "pending", "2024-05-01 12:03:00 +0000 UTC",
    "2024-05-01 12:03:00 +0000 UTC"]]

/-- Two tasks with different ids. -/
def twoTasks : List models.Task :=
  [⟨1, "Buy milk", "", "pending", sampleTime, sampleTime⟩,
   ⟨2, "Walk dog", "park", "completed", sampleTime, laterTime⟩]

/-- Two tasks that carry the same id. -/
def repeatedIdTasks : List models.Task :=
  [⟨1, "Buy milk", "", "pending", sampleTime, sampleTime⟩,
   ⟨1, "Walk dog", "park", "pending", laterTime, laterTime⟩]

/-- A task whose timestamps lie in the year 10000. -/
def farFutureTasks : List models.Task :=
  [⟨1, "Buy milk", "", "pending", ⟨10000, 1, 1, 0, 0, 0, 0⟩, ⟨10000, 1, 1, 0, 0, 0, 0⟩⟩]

/-- A delimited document of two columns. -/
def twoColumnDocument : List Record :=
  [["ID", "TITLE"], ["1", "Buy milk"]]

/-! ## `strconv.Atoi` reads back what `strconv.Itoa` prints -/

theorem digitVal_digitChar (d : Nat) (h : d < 10) : digitVal (digitChar d) = some d := by
  interval_cases d <;> decide

theorem parseDigits_append (l1 l2 : List Char) (a : Nat) :
    parseDigits (l1 ++ l2) a = (parseDigits l1 a).bind (parseDigits l2) := by
  induction l1 generalizing a with
  | nil => simp [parseDigits]
  | cons c cs ih =>
    simp only [List.cons_append, parseDigits]
    cases digitVal c with
    | none => simp
    | some d => simpa using ih (a * 10 + d)

theorem digitsCore_acc (fuel n : Nat) (acc : List Char) :
    digitsCore fuel n acc = digitsCore fuel n [] ++ acc := by
  induction fuel generalizing n acc with
  | zero => simp [digitsCore]
  | succ k ih =>
    simp only [digitsCore]
    split
    · simp
    · rw [ih (n / 10) (digitChar (n % 10) :: acc), ih (n / 10) [digitChar (n % 10)]]
      simp

theorem parseDigits_digitsCore (fuel n : Nat) (h : n < fuel) :
    parseDigits (digitsCore fuel n []) 0 = some n := by
  induction fuel generalizing n with
  | zero => omega
  | succ k ih =>
    simp only [digitsCore]
    split
    · rename_i h0
      have hn : n % 10 = n := by omega
      have hd := digitVal_digitChar (n % 10) (Nat.mod_lt _ (by decide))
      rw [hn] at hd ⊢
      simp [parseDigits, hd]
    · rename_i h0
      rw [digitsCore_acc, parseDigits_append, ih (n / 10) (by omega)]
      simp [parseDigits, digitVal_digitChar (n % 10) (Nat.mod_lt _ (by decide))]
      omega

theorem parseDigits_natToDigits (n : Nat) : parseDigits (natToDigits n) 0 = some n :=
  parseDigits_digitsCore (n + 1) n (Nat.lt_succ_self n)

theorem digitsCore_head (fuel n : Nat) (h : n < fuel) :
    ∃ d rest, d < 10 ∧ digitsCore fuel n [] = digitChar d :: rest := by
  induction fuel generalizing n with
  | zero => omega
  | succ k ih =>
    simp only [digitsCore]
    split
    · exact ⟨n % 10, [], Nat.mod_lt _ (by decide), rfl⟩
    · obtain ⟨d, rest, hd, hr⟩ := ih (n / 10) (by omega)
      rw [digitsCore_acc, hr]
      exact ⟨d, rest ++ [digitChar (n % 10)], hd, rfl⟩

theorem natToDigits_head (n : Nat) :
    ∃ d rest, d < 10 ∧ natToDigits n = digitChar d :: rest :=
  digitsCore_head (n + 1) n (Nat.lt_succ_self n)

theorem digitChar_ne_sign (d : Nat) (h : d < 10) : digitChar d ≠ '-' ∧ digitChar d ≠ '+' := by
  interval_cases d <;> decide

/-- `strconv.Atoi` reads back what `strconv.Itoa` prints, for every value of `int`. -/
theorem atoi_itoa (n : Int) (hlo : minInt ≤ n) (hhi : n ≤ maxInt) : atoi (itoa n) = some n := by
  cases n with
  | ofNat m =>
    obtain ⟨d, rest, hd, hr⟩ := natToDigits_head m
    have hp := parseDigits_natToDigits m
    have hs := digitChar_ne_sign d hd
    simp only [itoa, atoi, hr, hs.1, hs.2, if_false, parseMagnitude]
    rw [hr] at hp
    simp only [List.cons_ne_nil, if_false, hp]
    have : ¬ (maxInt < (m : Int)) := by
      have : ((Int.ofNat m : Int)) = (m : Int) := rfl
      simp only [maxInt] at hhi ⊢
      omega
    simp [this]
  | negSucc m =>
    obtain ⟨d, rest, hd, hr⟩ := natToDigits_head (m + 1)
    have hp := parseDigits_natToDigits (m + 1)
    simp only [itoa, atoi, if_true, parseMagnitude, hr, List.cons_ne_nil, if_false]
    rw [hr] at hp
    simp only [hp]
    have : ¬ (-((m + 1 : Nat) : Int) < minInt) := by
      simp only [minInt] at hlo ⊢
      have : Int.negSucc m = -((m + 1 : Nat) : Int) := rfl
      omega
    simp only [this, if_false]
    rfl


theorem atoi_range (s : String) (k : Int) (h : atoi s = some k) : minInt ≤ k ∧ k ≤ maxInt := by
  unfold atoi at h
  split at h
  · simp at h
  · rename_i c cs _
    split at h
    · split at h
      · simp at h
      · rename_i n _
        split at h
        · simp at h
        · rename_i hlt
          simp only [Option.some.injEq] at h
          subst h
          simp only [minInt, maxInt] at hlt ⊢
          omega
    · split at h
      · split at h
        · simp at h
        · rename_i n _
          split at h
          · simp at h
          · rename_i hlt
            simp only [Option.some.injEq] at h
            subst h
            simp only [minInt, maxInt] at hlt ⊢
            omega
      · split at h
        · simp at h
        · rename_i n _
          split at h
          · simp at h
          · rename_i hlt
            simp only [Option.some.injEq] at h
            subst h
            simp only [minInt, maxInt] at hlt ⊢
            omega

theorem atoi_itoa_of_atoi (s : String) (k : Int) (h : atoi s = some k) :
    atoi (itoa k) = some k :=
  atoi_itoa k (atoi_range s k h).1 (atoi_range s k h).2

/-! ## Create -/

theorem saveToCSVFile_no_rows (E : Env) (file : CSVFile) (task : cmd.Task) (t1 t2 : Time)
    (h : dataRows file = []) :
    saveToCSVFile E file task t1 t2 =
      ⟨(if file = [] then [csvHeaders] else file) ++ [newRecord E 1 task t1 t2], .done ()⟩ := by
  cases file with
  | nil => simp [saveToCSVFile]
  | cons hd tl =>
    simp only [dataRows, List.drop_succ_cons, List.drop_zero] at h
    subst h
    simp [saveToCSVFile]

/-- C3: create on an empty file writes the header `ID,TITLE,DESCRIPTION,STATUS,CREATED AT,
UPDATED AT` and the single data row `1, title, description, pending, ts, ts`, whose two
timestamp columns are the adapter's rendering of the clock readings the call takes; on a
file that holds only the header it appends that same row and leaves the header as it is. -/
theorem saveToCSVFile_first_task (E : Env) (title description : String) (t1 t2 : Time) :
    csvHeaders = ["ID", "TITLE", "DESCRIPTION", "STATUS", "CREATED AT", "UPDATED AT"] ∧
    saveToCSVFile E [] ⟨title, description⟩ t1 t2 =
      ⟨[csvHeaders, ["1", title, description, "pending", E.render t1, E.render t2]],
        .done ()⟩ ∧
    saveToCSVFile E [csvHeaders] ⟨title, description⟩ t1 t2 =
      ⟨[csvHeaders, ["1", title, description, "pending", E.render t1, E.render t2]],
        .done ()⟩ := by
  refine ⟨rfl, ?_, ?_⟩
  · rw [saveToCSVFile_no_rows E [] _ t1 t2 rfl]
    rfl
  · rw [saveToCSVFile_no_rows E [csvHeaders] _ t1 t2 rfl]
    rfl

/-- C2: on a file that holds the header and one or more data rows, create does not append
a row: `csvRecords[len(records)-1]` indexes one past the last data row, the call panics
and the file is left as it was. -/
theorem saveToCSVFile_panics_on_data_rows (E : Env) (header : Record) (rows : List Record)
    (last : Record) (task : cmd.Task) (t1 t2 : Time) :
    saveToCSVFile E (header :: (rows ++ [last])) task t1 t2 =
      ⟨header :: (rows ++ [last]), .crash "index out of range"⟩ := by
  have hlen : ¬ ((header :: (rows ++ [last])).length ≤ 0) := by simp
  have hget : ((header :: (rows ++ [last])).drop 1)[(header :: (rows ++ [last])).length - 1]?
      = none := by
    simp
  simp only [saveToCSVFile, hlen, if_false, hget]
  simp


/-- C1 (as stated, refuted): in the session create, delete 1, create on an empty file the
second create is assigned ID 1 again, the ID the delete removed, and not ID 2. -/
theorem second_create_reuses_deleted_id :
    assignedIDs goEnv []
        [.create ⟨"Buy milk", ""⟩ sampleTime sampleTime, .delete 1,
         .create ⟨"Walk dog", ""⟩ laterTime laterTime] = [some 1, some 1] ∧
      assignedIDs goEnv []
        [.create ⟨"Buy milk", ""⟩ sampleTime sampleTime, .delete 1,
         .create ⟨"Walk dog", ""⟩ laterTime laterTime] ≠ [some 1, some 2] := by
  decide

/-- C1 (amended): after any session of creates and deletes on an empty file that leaves no
data rows in the file, the next create ends normally and is assigned ID 1: the first create
of a session, and every create made once all rows have been deleted. -/
theorem create_without_rows_assigns_one (E : Env) (ops : List Op) (task : cmd.Task)
    (t1 t2 : Time) (h : dataRows (runOps E [] ops) = []) :
    (saveToCSVFile E (runOps E [] ops) task t1 t2).result = .done () ∧
      assignedIDs E (runOps E [] ops) [.create task t1 t2] = [some 1] := by
  rw [assignedIDs, assignedIDs, saveToCSVFile_no_rows E _ task t1 t2 h]
  refine ⟨rfl, ?_⟩
  have h1 : atoi (itoa 1) = some 1 := by decide
  have : rowID (newRecord E 1 task t1 t2) = some 1 := by
    simp [rowID, newRecord, h1]
  simp [createdID, this]

theorem create_without_rows_assigns_one_witness :
    dataRows (runOps goEnv []
        [.create ⟨"Buy milk", ""⟩ sampleTime sampleTime, .delete 1]) = [] ∧
      ((saveToCSVFile goEnv (runOps goEnv []
          [.create ⟨"Buy milk", ""⟩ sampleTime sampleTime, .delete 1])
          ⟨"Walk dog", ""⟩ laterTime laterTime).result = .done () ∧
        assignedIDs goEnv (runOps goEnv []
          [.create ⟨"Buy milk", ""⟩ sampleTime sampleTime, .delete 1])
          [.create ⟨"Walk dog", ""⟩ laterTime laterTime] = [some 1]) :=
  ⟨by decide, create_without_rows_assigns_one goEnv _ _ _ _ (by decide)⟩


/-! ## Edit -/

theorem parseDigits_ge (cs : List Char) (a n : Nat) (h : parseDigits cs a = some n) :
    a ≤ n := by
  induction cs generalizing a with
  | nil =>
    simp only [parseDigits, Option.some.injEq] at h
    omega
  | cons c rest ih =>
    simp only [parseDigits] at h
    cases hd : digitVal c with
    | none => simp [hd] at h
    | some d =>
      simp only [hd] at h
      have := ih (a * 10 + d) h
      omega

theorem scanDigits_of_parseDigits (cs : List Char) (a n : Nat)
    (h : parseDigits cs a = some n) (hn : n ≤ 18446744073709551615) :
    scanDigits cs a = .value n := by
  induction cs generalizing a with
  | nil =>
    simp only [parseDigits, Option.some.injEq] at h
    simp [scanDigits, h]
  | cons c rest ih =>
    simp only [parseDigits] at h
    cases hd : digitVal c with
    | none => simp [hd] at h
    | some d =>
      simp only [hd] at h
      have hge := parseDigits_ge rest (a * 10 + d) n h
      have h1 : ¬ (1844674407370955162 ≤ a) := by omega
      have h2 : ¬ (18446744073709551615 < a * 10 + d) := by omega
      simp only [scanDigits, hd, h1, h2, if_false]
      exact ih (a * 10 + d) h

/-- Where `strconv.Atoi` returns no error, the value it returns is the number. -/
theorem atoiValue_of_atoi (s : String) (n : Int) (h : atoi s = some n) : atoiValue s = n := by
  unfold atoi at h
  unfold atoiValue
  split at h
  · simp at h
  · rename_i c cs hdata
    simp only
    by_cases hneg : c = '-'
    · subst hneg
      simp only [if_true] at h
      cases hm : parseMagnitude cs with
      | none => simp [hm] at h
      | some m =>
        simp only [hm] at h
        unfold parseMagnitude at hm
        split at hm
        · simp at hm
        · rename_i hne
          split at h
          · simp at h
          · rename_i hlo
            simp only [Option.some.injEq] at h
            subst h
            have hm64 : m ≤ 18446744073709551615 := by
              simp only [minInt] at hlo
              omega
            have hscan := scanDigits_of_parseDigits cs 0 m hm hm64
            have h3 : ¬ (9223372036854775808 < m) := by
              simp only [minInt] at hlo
              omega
            simp [hne, hscan, h3]
    · by_cases hpos : c = '+'
      · subst hpos
        simp only [hneg, if_false, if_true] at h
        cases hm : parseMagnitude cs with
        | none => simp [hm] at h
        | some m =>
          simp only [hm] at h
          unfold parseMagnitude at hm
          split at hm
          · simp at hm
          · rename_i hne
            split at h
            · simp at h
            · rename_i hhi
              simp only [Option.some.injEq] at h
              subst h
              have hm64 : m ≤ 18446744073709551615 := by
                simp only [maxInt] at hhi
                omega
              have hscan := scanDigits_of_parseDigits cs 0 m hm hm64
              have h3 : ¬ (9223372036854775808 ≤ m) := by
                simp only [maxInt] at hhi
                omega
              simp [hne, hscan, h3]
      · simp only [hneg, hpos, if_false] at h
        cases hm : parseMagnitude (c :: cs) with
        | none => simp [hm] at h
        | some m =>
          simp only [hm] at h
          unfold parseMagnitude at hm
          simp only [List.cons_ne_nil, if_false] at hm
          split at h
          · simp at h
          · rename_i hhi
            simp only [Option.some.injEq] at h
            subst h
            have hm64 : m ≤ 18446744073709551615 := by
              simp only [maxInt] at hhi
              omega
            have hscan := scanDigits_of_parseDigits (c :: cs) 0 m hm hm64
            have h3 : ¬ (9223372036854775808 ≤ m) := by
              simp only [maxInt] at hhi
              omega
            simp [hneg, hpos, hscan, h3]

theorem recordID_of_rowID (r : Record) (k : Int) (h : rowID r = some k) :
    recordID r = some k := by
  unfold rowID at h
  unfold recordID
  split at h
  · simp at h
  · rename_i first hfirst
    simp [hfirst, atoiValue_of_atoi first k h]

theorem editRecord_six (E : Env) (c0 c1 c2 c3 c4 c5 title status : String) (now : Time) :
    editRecord E [c0, c1, c2, c3, c4, c5] title status now =
      some [c0, if title = "" then c1 else title, c2, if status = "" then c3 else status, c4,
        E.render now] := by
  by_cases ht : title = "" <;> by_cases hs : status = "" <;>
    simp [editRecord, setField, ht, hs]

theorem editRows_no_match (E : Env) (id : Int) (title status : String) (now : Time)
    (rows : List Record) (h : ∀ r ∈ rows, ∃ k, recordID r = some k ∧ k ≠ id) :
    editRows E id title status now rows = .done none := by
  induction rows with
  | nil => rfl
  | cons r rest ih =>
    obtain ⟨k, hk, hne⟩ := h r (List.mem_cons_self r rest)
    have ih1 := ih (fun x hx => h x (List.mem_cons_of_mem r hx))
    simp [editRows, hk, hne, ih1]

theorem editRows_first_match (E : Env) (id : Int) (title status : String) (now : Time)
    (pre post : List Record) (c0 c1 c2 c3 c4 c5 : String)
    (hpre : ∀ r ∈ pre, ∃ k, recordID r = some k ∧ k ≠ id)
    (hid : atoiValue c0 = id) :
    editRows E id title status now (pre ++ [c0, c1, c2, c3, c4, c5] :: post) =
      .done (some (pre ++ [c0, if title = "" then c1 else title, c2,
        if status = "" then c3 else status, c4, E.render now] :: post)) := by
  induction pre with
  | nil =>
    have hr : recordID [c0, c1, c2, c3, c4, c5] = some id := by simp [recordID, hid]
    simp [editRows, hr, editRecord_six]
  | cons r rest ih =>
    obtain ⟨k, hk, hne⟩ := hpre r (List.mem_cons_self r rest)
    have ih1 := ih (fun x hx => hpre x (List.mem_cons_of_mem r hx))
    simp [editRows, hk, hne, ih1]

theorem rows_split_at_id (id : Int) (rows : List Record)
    (hcols : ∀ r ∈ rows, r.length = 6) (hex : some id ∈ rows.map rowID) :
    ∃ pre post c0 c1 c2 c3 c4 c5,
      rows = pre ++ [c0, c1, c2, c3, c4, c5] :: post ∧
      (∀ r ∈ pre, rowID r ≠ some id) ∧ atoi c0 = some id := by
  induction rows with
  | nil => simp at hex
  | cons r rest ih =>
    have hlen := hcols r (List.mem_cons_self r rest)
    match r, hlen with
    | [c0, c1, c2, c3, c4, c5], _ =>
      by_cases hm : atoi c0 = some id
      · exact ⟨[], rest, c0, c1, c2, c3, c4, c5, rfl, by simp, hm⟩
      · have hex1 : some id ∈ rest.map rowID := by
          simp only [List.map_cons, List.mem_cons] at hex
          rcases hex with h | h
          · simp only [rowID, List.getElem?_cons_zero] at h
            exact absurd h.symm hm
          · exact h
        obtain ⟨pre, post, d0, d1, d2, d3, d4, d5, hrows, hpre, hid⟩ :=
          ih (fun x hx => hcols x (List.mem_cons_of_mem _ hx)) hex1
        refine ⟨[c0, c1, c2, c3, c4, c5] :: pre, post, d0, d1, d2, d3, d4, d5, ?_, ?_, hid⟩
        · simp [hrows]
        · intro x hx
          rcases List.mem_cons.mp hx with rfl | hx1
          · simpa [rowID] using hm
          · exact hpre x hx1

/-- On a flat file of six-column rows whose ID columns are all integers, edit of an id
that some data row has rewrites only the first row with that ID: TITLE and STATUS when
the new value is not empty, and UPDATED AT. -/
theorem editTaskInCSV_integer_ids (E : Env) (file : CSVFile) (id : Int)
    (title status : String) (now : Time)
    (hcols : ∀ r ∈ file, r.length = 6)
    (hint : ∀ r ∈ dataRows file, rowID r ≠ none)
    (hex : some id ∈ rowIDs file) :
    ∃ header pre post c0 c1 c2 c3 c4 c5,
      file = header :: (pre ++ [c0, c1, c2, c3, c4, c5] :: post) ∧
      (∀ r ∈ pre, rowID r ≠ some id) ∧
      atoi c0 = some id ∧
      editTaskInCSV E file id title status now =
        ⟨header :: (pre ++ [c0, if title = "" then c1 else title, c2,
            if status = "" then c3 else status, c4, E.render now] :: post), .done ()⟩ := by
  cases file with
  | nil => simp [rowIDs, dataRows] at hex
  | cons header rows =>
    simp only [rowIDs, dataRows, List.drop_succ_cons, List.drop_zero] at hex hint
    obtain ⟨pre, post, c0, c1, c2, c3, c4, c5, hrows, hpre, hid⟩ :=
      rows_split_at_id id rows (fun x hx => hcols x (List.mem_cons_of_mem _ hx)) hex
    refine ⟨header, pre, post, c0, c1, c2, c3, c4, c5, by rw [hrows], hpre, hid, ?_⟩
    subst hrows
    have hpre1 : ∀ r ∈ pre, ∃ k, recordID r = some k ∧ k ≠ id := by
      intro r hr
      cases hk : rowID r with
      | none => exact absurd hk (hint r (List.mem_append_left _ hr))
      | some k =>
        refine ⟨k, recordID_of_rowID r k hk, ?_⟩
        intro hkid
        exact hpre r hr (by rw [hk, hkid])
    simp [editTaskInCSV, editRows_first_match E id title status now pre post c0 c1 c2 c3 c4 c5
      hpre1 (atoiValue_of_atoi c0 id hid)]

/-- On a flat file whose ID columns are all integers, edit of an id that no data row has
ends with "not found" and leaves the file as it was. -/
theorem editTaskInCSV_integer_ids_unknown (E : Env) (file : CSVFile) (id : Int)
    (title status : String) (now : Time)
    (hint : ∀ r ∈ dataRows file, rowID r ≠ none)
    (hno : some id ∉ rowIDs file) :
    editTaskInCSV E file id title status now =
      ⟨file, .exit "Task with ID %d not found in CSV file."⟩ := by
  have h : ∀ r ∈ file.drop 1, ∃ k, recordID r = some k ∧ k ≠ id := by
    intro r hr
    cases hk : rowID r with
    | none => exact absurd hk (hint r hr)
    | some k =>
      refine ⟨k, recordID_of_rowID r k hk, ?_⟩
      intro hkid
      apply hno
      simp only [rowIDs, dataRows, List.mem_map]
      exact ⟨r, hr, by rw [hk, hkid]⟩
  have hrows := editRows_no_match E id title status now (file.drop 1) h
  unfold editTaskInCSV
  rw [hrows]

/-- C4: edit does not always rewrite the row that has the id. In a file whose first data
row has the ID column `abc` and whose second data row has ID 0, edit of id 0 reads `abc`
as 0 (the error of `strconv.Atoi` is discarded), rewrites the first row and leaves the
row with ID 0 as it was. -/
theorem editTaskInCSV_rewrites_a_row_with_another_id (E : Env) (header : Record)
    (a1 a2 a3 a4 a5 b1 b2 b3 b4 b5 title status : String) (now : Time) :
    rowID ["abc", a1, a2, a3, a4, a5] = none ∧
      rowID ["0", b1, b2, b3, b4, b5] = some 0 ∧
      editTaskInCSV E [header, ["abc", a1, a2, a3, a4, a5], ["0", b1, b2, b3, b4, b5]] 0
          title status now =
        ⟨[header,
          ["abc", if title = "" then a1 else title, a2, if status = "" then a3 else status,
            a4, E.render now],
          ["0", b1, b2, b3, b4, b5]], .done ()⟩ := by
  have habc : atoi "abc" = none := by decide
  have hzero : atoi "0" = some 0 := by decide
  have hval : atoiValue "abc" = 0 := by decide
  refine ⟨by simp [rowID, habc], by simp [rowID, hzero], ?_⟩
  have := editRows_first_match E 0 title status now [] [["0", b1, b2, b3, b4, b5]]
    "abc" a1 a2 a3 a4 a5 (by simp) hval
  simp only [List.nil_append] at this
  simp [editTaskInCSV, this]

/-- C8: edit of an id that no data row has does not always report "not found". In a file
whose only data row has the ID column `abc`, edit of id 0 (the value of `id` when the flag
is not given) reads `abc` as 0, rewrites that row and ends normally. -/
theorem editTaskInCSV_finds_a_row_without_the_id (E : Env) (header : Record)
    (c1 c2 c3 c4 c5 title status : String) (now : Time) :
    some 0 ∉ rowIDs [header, ["abc", c1, c2, c3, c4, c5]] ∧
      editTaskInCSV E [header, ["abc", c1, c2, c3, c4, c5]] 0 title status now =
        ⟨[header,
          ["abc", if title = "" then c1 else title, c2, if status = "" then c3 else status,
            c4, E.render now]], .done ()⟩ := by
  have habc : atoi "abc" = none := by decide
  have hval : atoiValue "abc" = 0 := by decide
  refine ⟨by simp [rowIDs, dataRows, rowID, habc], ?_⟩
  have := editRows_first_match E 0 title status now [] [] "abc" c1 c2 c3 c4 c5 (by simp) hval
  simp only [List.nil_append] at this
  simp [editTaskInCSV, this]

/-! ## Delete -/

theorem decodeRows_tasks (E : Env) (rows : List Record) (acc : List DBTask)
    (h : ∀ r ∈ rows, ∃ t, decodeRow E r = .task t) :
    ∃ ts, decodeRows E rows acc = .done (acc ++ ts) ∧
      List.Forall₂ (fun r t => decodeRow E r = .task t) rows ts := by
  induction rows generalizing acc with
  | nil => exact ⟨[], by simp [decodeRows], List.Forall₂.nil⟩
  | cons r rest ih =>
    obtain ⟨t, ht⟩ := h r (List.mem_cons_self r rest)
    obtain ⟨ts, hts, hall⟩ := ih (acc ++ [t]) (fun x hx => h x (List.mem_cons_of_mem r hx))
    refine ⟨t :: ts, ?_, List.Forall₂.cons ht hall⟩
    simp only [decodeRows, ht, hts]
    simp

theorem decodeRow_task_id (E : Env) (r : Record) (t : DBTask) (h : decodeRow E r = .task t) :
    rowID r = some t.ID ∧ atoi (itoa t.ID) = some t.ID := by
  unfold decodeRow at h
  split at h
  · rename_i c0 c1 c2 c3 c4 c5 rest
    split at h
    · simp at h
    · rename_i k hk
      split at h
      · simp at h
      · split at h
        · simp at h
        · simp only [RowStep.task.injEq] at h
          subst h
          exact ⟨by simp [rowID, hk], atoi_itoa_of_atoi c0 k hk⟩
  · simp at h

theorem rowID_taskRecord (t : DBTask) : rowID (taskRecord t) = atoi (itoa t.ID) := by
  simp [rowID, taskRecord]

theorem kept_ids (E : Env) (id : Int) (rows : List Record) (ts : List DBTask)
    (h : List.Forall₂ (fun r t => decodeRow E r = .task t) rows ts) :
    ((ts.filter (fun content => decide (content.ID ≠ id))).map taskRecord).map rowID =
        (rows.map rowID).filter (fun k => decide (k ≠ some id)) ∧
      (ts.any (fun content => decide (content.ID = id)) = true ↔ some id ∈ rows.map rowID) := by
  induction h with
  | nil => simp
  | cons hrt _ ih =>
    rename_i r t rest ts1 _
    obtain ⟨hid, hrt1⟩ := decodeRow_task_id E r t hrt
    obtain ⟨ih1, ih2⟩ := ih
    constructor
    · by_cases hk : t.ID = id
      · simp only [List.map_cons, hid, List.filter_cons, hk]
        simpa using ih1
      · have hk1 : ¬ (some t.ID = some id) := fun hh => hk (Option.some.inj hh)
        simp only [List.map_cons, hid, List.filter_cons, hk, hk1, ne_eq, not_false_eq_true,
          decide_True, if_true, rowID_taskRecord, hrt1]
        rw [← ih1]
    · by_cases hk : t.ID = id
      · simp [hid, hk]
      · have hk1 : ¬ (some id = some t.ID) := fun hh => hk (Option.some.inj hh).symm
        simp only [List.any_cons, hk, decide_False, Bool.false_or, List.map_cons, hid,
          List.mem_cons, hk1, false_or]
        exact ih2

theorem deleteFromCSVFile_decoded (E : Env) (header : Record) (rows : List Record) (id : Int)
    (hdec : ∀ r ∈ rows, ∃ t, decodeRow E r = .task t)
    (hid : some id ∈ rows.map rowID) :
    ∃ ts, List.Forall₂ (fun r t => decodeRow E r = .task t) rows ts ∧
      deleteFromCSVFile E (header :: rows) id =
        ⟨csvHeaders :: (ts.filter (fun content => decide (content.ID ≠ id))).map taskRecord,
          .done (.deleted id)⟩ := by
  obtain ⟨ts, hts, hall⟩ := decodeRows_tasks E rows [] hdec
  refine ⟨ts, hall, ?_⟩
  have hfound := (kept_ids E id rows ts hall).2.mpr hid
  have hlen : ¬ (ts.length ≤ 0) := by
    cases ts with
    | nil => simp at hfound
    | cons t rest => simp
  simp only [List.nil_append] at hts
  simp only [deleteFromCSVFile, getDataFromCSVFile, hts, hlen, if_false, hfound]
  simp

/-- C6: on a file whose data rows all decode, delete of an id that some data row has ends
normally and reports the deletion; the file it leaves starts with the header, the IDs of
its data rows are the IDs of the old data rows with every occurrence of the id removed,
so no data row has the id any more, and deleting the only data row leaves the header
alone. -/
theorem deleteFromCSVFile_removes_the_id (E : Env) (file : CSVFile) (id : Int)
    (hdec : ∀ r ∈ dataRows file, ∃ t, decodeRow E r = .task t)
    (hid : some id ∈ rowIDs file) :
    (deleteFromCSVFile E file id).result = .done (.deleted id) ∧
      (deleteFromCSVFile E file id).file.head? = some csvHeaders ∧
      rowIDs (deleteFromCSVFile E file id).file =
        (rowIDs file).filter (fun k => decide (k ≠ some id)) ∧
      some id ∉ rowIDs (deleteFromCSVFile E file id).file ∧
      ((dataRows file).length = 1 → (deleteFromCSVFile E file id).file = [csvHeaders]) := by
  cases file with
  | nil => simp [rowIDs, dataRows] at hid
  | cons header rows =>
    simp only [rowIDs, dataRows, List.drop_succ_cons, List.drop_zero] at hdec hid ⊢
    obtain ⟨ts, hall, hdel⟩ := deleteFromCSVFile_decoded E header rows id hdec hid
    have hkept := (kept_ids E id rows ts hall).1
    rw [hdel]
    refine ⟨rfl, rfl, hkept, ?_, ?_⟩
    · show some id ∉ ((ts.filter (fun content => decide (content.ID ≠ id))).map
        taskRecord).map rowID
      rw [hkept]
      simp
    · intro hone
      have hnil : (rows.map rowID).filter (fun k => decide (k ≠ some id)) = [] := by
        match rows, hone, hid with
        | [r], _, hid1 =>
          simp only [List.map_cons, List.map_nil, List.mem_singleton] at hid1
          simp [← hid1]
      rw [hnil] at hkept
      have : (ts.filter (fun content => decide (content.ID ≠ id))).map taskRecord = [] :=
        List.map_eq_nil_iff.mp hkept
      show csvHeaders :: (ts.filter (fun content => decide (content.ID ≠ id))).map taskRecord
        = [csvHeaders]
      rw [this]

theorem deleteFromCSVFile_removes_the_id_witness :
    (∀ r ∈ dataRows twoTaskFile, ∃ t, decodeRow goEnv r = .task t) ∧
      some 1 ∈ rowIDs twoTaskFile ∧
      ((deleteFromCSVFile goEnv twoTaskFile 1).result = .done (.deleted 1) ∧
        (deleteFromCSVFile goEnv twoTaskFile 1).file.head? = some csvHeaders ∧
        rowIDs (deleteFromCSVFile goEnv twoTaskFile 1).file =
          (rowIDs twoTaskFile).filter (fun k => decide (k ≠ some 1)) ∧
        some 1 ∉ rowIDs (deleteFromCSVFile goEnv twoTaskFile 1).file ∧
        ((dataRows twoTaskFile).length = 1 →
          (deleteFromCSVFile goEnv twoTaskFile 1).file = [csvHeaders])) :=
  have hdec : ∀ r ∈ dataRows twoTaskFile, ∃ t, decodeRow goEnv r = .task t := by
    intro r hr
    simp only [dataRows, twoTaskFile, List.drop_succ_cons, List.drop_zero, List.mem_cons,
      List.mem_singleton, List.not_mem_nil, or_false] at hr
    rcases hr with rfl | rfl
    · exact ⟨_, rfl⟩
    · exact ⟨_, rfl⟩
  ⟨hdec, by decide, deleteFromCSVFile_removes_the_id goEnv twoTaskFile 1 hdec (by decide)⟩

/-- C5: delete does not keep the timestamps of the rows that stay. In a file of two rows
in the adapter's format, delete of ID 1 rewrites the row with ID 2 with its CREATED AT
and UPDATED AT columns replaced by the `timediff` phrases of the stored instants. -/
theorem deleteFromCSVFile_replaces_timestamps (E : Env) (header : Record)
    (c1 c2 c3 c4 c5 d1 d2 d3 d4 d5 : String) (tc tu : Time)
    (h4 : E.parseStamp c4 ≠ none) (h5 : E.parseStamp c5 ≠ none)
    (hd4 : E.parseStamp d4 = some tc) (hd5 : E.parseStamp d5 = some tu) :
    deleteFromCSVFile E [header, ["1", c1, c2, c3, c4, c5], ["2", d1, d2, d3, d4, d5]] 1 =
      ⟨[csvHeaders, ["2", d1, d2, d3, E.timeDiff tc, E.timeDiff tu]], .done (.deleted 1)⟩ := by
  obtain ⟨a, ha⟩ := Option.ne_none_iff_exists'.mp h4
  obtain ⟨b, hb⟩ := Option.ne_none_iff_exists'.mp h5
  have h1 : atoi "1" = some 1 := by decide
  have h2 : atoi "2" = some 2 := by decide
  have hi : itoa 2 = "2" := by decide
  simp [deleteFromCSVFile, getDataFromCSVFile, decodeRows, decodeRow, h1, h2, ha, hb, hd4, hd5,
    taskRecord, hi]

theorem deleteFromCSVFile_replaces_timestamps_witness :
    goEnv.parseStamp "2024-05-01 12:00:07.12 +0000 UTC" ≠ none ∧
      goEnv.parseStamp "2024-05-01 12:03:00 +0000 UTC" = some laterTime ∧
      goEnv.timeDiff laterTime ≠ "2024-05-01 12:03:00 +0000 UTC" ∧
      deleteFromCSVFile goEnv twoTaskFile 1 =
        ⟨[csvHeaders, ["2", "Walk dog", "park", "pending", goEnv.timeDiff laterTime,
            goEnv.timeDiff laterTime]], .done (.deleted 1)⟩ :=
  ⟨by decide, by decide, by decide,
    deleteFromCSVFile_replaces_timestamps goEnv csvHeaders "Buy milk" "" "pending"
      "2024-05-01 12:00:07.12 +0000 UTC" "2024-05-01 12:00:07.12 +0000 UTC" "Walk dog" "park"
      "pending" "2024-05-01 12:03:00 +0000 UTC" "2024-05-01 12:03:00 +0000 UTC" laterTime
      laterTime (by decide) (by decide) (by decide) (by decide)⟩

/-- C7: on an empty file (the file as it is created when it did not exist) delete does not
report that nothing was removed: `getDataFromCSVFile` slices `csvData[1:]` of an empty
slice and the call panics. -/
theorem deleteFromCSVFile_panics_on_empty_file (E : Env) (id : Int) :
    deleteFromCSVFile E [] id = ⟨[], .crash "slice bounds out of range [1:0]"⟩ := by
  rfl


/-! ## Import -/

theorem idExists_append (db : Store) (row : Row) (id : Int) :
    idExists (db ++ [row]) id = (idExists db id || decide (row.id = id)) := by
  simp [idExists]

theorem grown_store (db : Store) (row : Row) (added : List Row)
    (hrow : idExists db row.id = false)
    (hfresh : ∀ r ∈ added, idExists (db ++ [row]) r.id = false)
    (hnodup : (added.map (fun r => r.id)).Nodup) :
    (∀ r ∈ row :: added, idExists db r.id = false) ∧
      ((row :: added).map (fun r => r.id)).Nodup := by
  constructor
  · intro r hr
    rcases List.mem_cons.mp hr with rfl | hr1
    · exact hrow
    · have := hfresh r hr1
      rw [idExists_append] at this
      simp only [Bool.or_eq_false_iff] at this
      exact this.1
  · simp only [List.map_cons, List.nodup_cons]
    refine ⟨?_, hnodup⟩
    intro hmem
    obtain ⟨r, hr, hrid⟩ := List.mem_map.mp hmem
    have := hfresh r hr
    rw [idExists_append] at this
    simp only [Bool.or_eq_false_iff, decide_eq_false_iff_not] at this
    exact this.2 hrid.symm

theorem importTasks_appends (tasks : List models.Task) (db : Store) :
    ∃ added, (importTasks tasks db).db = db ++ added ∧
      (∀ r ∈ added, idExists db r.id = false) ∧ (added.map (fun r => r.id)).Nodup := by
  induction tasks generalizing db with
  | nil => exact ⟨[], by simp [importTasks], by simp, by simp⟩
  | cons task rest ih =>
    by_cases hex : idExists db task.ID = true
    · simpa [importTasks, hex] using ih db
    · have hex1 : idExists db task.ID = false := by simpa using hex
      obtain ⟨added, hdb, hfresh, hnodup⟩ := ih (db ++
        [⟨task.ID, task.Title, task.Description, task.Status, task.CreatedAt, task.UpdatedAt⟩])
      obtain ⟨h1, h2⟩ := grown_store db
        ⟨task.ID, task.Title, task.Description, task.Status, task.CreatedAt, task.UpdatedAt⟩
        added hex1 hfresh hnodup
      refine ⟨_ :: added, ?_, h1, h2⟩
      simp [importTasks, insertRow, hex1, hdb]

theorem importRecords_appends (E : Env) (records : List Record) (db : Store) :
    ∃ added, (importRecords E records db).db = db ++ added ∧
      (∀ r ∈ added, idExists db r.id = false) ∧ (added.map (fun r => r.id)).Nodup := by
  induction records generalizing db with
  | nil => exact ⟨[], by simp [importRecords], by simp, by simp⟩
  | cons record rest ih =>
    unfold importRecords
    split
    · rename_i c0 c1 c2 c3 c4 c5 more
      by_cases hex : idExists db (MustAtoi c0) = true
      · simpa [hex] using ih db
      · have hex1 : idExists db (MustAtoi c0) = false := by simpa using hex
        obtain ⟨added, hdb, hfresh, hnodup⟩ := ih (db ++
          [⟨MustAtoi c0, c1, c2, c3, parseOrZero E c4, parseOrZero E c5⟩])
        obtain ⟨h1, h2⟩ := grown_store db
          ⟨MustAtoi c0, c1, c2, c3, parseOrZero E c4, parseOrZero E c5⟩ added hex1 hfresh hnodup
        refine ⟨_ :: added, ?_, h1, h2⟩
        simp [insertRow, hex1, hdb]
    · exact ⟨[], by simp, by simp, by simp⟩

/-- C9: whatever the table holds and whatever the document is (the decoded JSON list or
the delimited records, or a document that fails to decode), the table after the import
is the table before it followed by the inserted rows: every earlier row is still there
with its six fields, none is updated, replaced or removed; an inserted row never has an
id the table already held, and no id is inserted twice, also when the document repeats
it. -/
theorem import_keeps_existing_rows (E : Env) (db : Store) :
    (∀ decoded : Option (List models.Task), ∃ added,
        (importFromJSON decoded db).db = db ++ added ∧
        (∀ r ∈ added, idExists db r.id = false) ∧ (added.map (fun r => r.id)).Nodup) ∧
      (∀ read : Option (List Record), ∃ added,
        (importFromCSV E read db).db = db ++ added ∧
        (∀ r ∈ added, idExists db r.id = false) ∧ (added.map (fun r => r.id)).Nodup) := by
  constructor
  · intro decoded
    cases decoded with
    | none => exact ⟨[], by simp [importFromJSON], by simp, by simp⟩
    | some tasks => exact importTasks_appends tasks db
  · intro read
    cases read with
    | none => exact ⟨[], by simp [importFromCSV], by simp, by simp⟩
    | some records => exact importRecords_appends E (records.drop 1) db

/-- C10: import of delimited rows does not keep timestamps that are not RFC 3339 text, as
those of a file the flat-file adapter wrote: the error of `time.Parse` is discarded and
the row is inserted with the zero time in created_at and updated_at. -/
theorem importFromCSV_drops_adapter_timestamps (E : Env) (header : Record)
    (c0 c1 c2 c3 c4 c5 : String)
    (h4 : E.parseRFC3339 c4 = none) (h5 : E.parseRFC3339 c5 = none) :
    importFromCSV E (some [header, [c0, c1, c2, c3, c4, c5]]) [] =
      ⟨[⟨MustAtoi c0, c1, c2, c3, zeroTime, zeroTime⟩], .returned none⟩ := by
  simp [importFromCSV, importRecords, idExists, insertRow, parseOrZero, h4, h5]

theorem importFromCSV_drops_adapter_timestamps_witness :
    saveToCSVFile goEnv [] ⟨"Buy milk", ""⟩ sampleTime sampleTime = ⟨oneTaskFile, .done ()⟩ ∧
      goEnv.parseStamp (goEnv.render sampleTime) = some sampleTime ∧
      sampleTime ≠ zeroTime ∧
      goEnv.parseRFC3339 (goEnv.render sampleTime) = none ∧
      importFromCSV goEnv (some oneTaskFile) [] =
        ⟨[⟨1, "Buy milk", "", "pending", zeroTime, zeroTime⟩], .returned none⟩ :=
  ⟨by decide, by decide, by decide, by decide,
    importFromCSV_drops_adapter_timestamps goEnv csvHeaders "1" "Buy milk" "" "pending"
      "2024-05-01 12:00:07.12 +0000 UTC" "2024-05-01 12:00:07.12 +0000 UTC"
      (by decide) (by decide)⟩

/-! ## `encoding/json` reads back the timestamps it writes -/

theorem digitsCore_length_le (fuel n k : Nat) (hfuel : n < fuel) (hn : n < 10 ^ k)
    (hk : 1 ≤ k) : (digitsCore fuel n []).length ≤ k := by
  induction fuel generalizing n k with
  | zero => omega
  | succ f ih =>
    simp only [digitsCore]
    split
    · simpa using hk
    · rename_i h10
      rw [digitsCore_acc]
      have hk2 : 2 ≤ k := by
        by_contra hlt
        have hk1 : k = 1 := by omega
        subst hk1
        simp at hn
        omega
      have hdiv : n / 10 < 10 ^ (k - 1) := by
        apply Nat.div_lt_of_lt_mul
        have : 10 ^ k = 10 * 10 ^ (k - 1) := by
          rw [← Nat.pow_succ']
          congr 1
          omega
        omega
      have := ih (n / 10) (k - 1) (by omega) hdiv (by omega)
      simp only [List.length_append, List.length_singleton]
      omega

theorem natToDigits_length_le (n k : Nat) (hn : n < 10 ^ k) (hk : 1 ≤ k) :
    (natToDigits n).length ≤ k :=
  digitsCore_length_le (n + 1) n k (Nat.lt_succ_self n) hn hk

theorem parseDigits_zeros (m a : Nat) :
    parseDigits (List.replicate m '0') a = some (a * 10 ^ m) := by
  induction m generalizing a with
  | zero => simp [parseDigits]
  | succ k ih =>
    have h0 : digitVal '0' = some 0 := by decide
    simp only [List.replicate_succ, parseDigits, h0]
    rw [ih]
    congr 1
    rw [Nat.pow_succ]
    ring

theorem padDigits_length (k n : Nat) (hn : n < 10 ^ k) (hk : 1 ≤ k) :
    (padDigits k n).length = k := by
  have := natToDigits_length_le n k hn hk
  simp only [padDigits, List.length_append, List.length_replicate]
  omega

theorem parseDigits_padDigits (k n : Nat) : parseDigits (padDigits k n) 0 = some n := by
  simp only [padDigits, parseDigits_append, parseDigits_zeros]
  simpa using parseDigits_natToDigits n

theorem takeNum_padDigits (k n : Nat) (rest : List Char) (hn : n < 10 ^ k) (hk : 1 ≤ k) :
    takeNum k (padDigits k n ++ rest) = some (n, rest) := by
  have hlen := padDigits_length k n hn hk
  have h1 : ¬ ((padDigits k n ++ rest).length < k) := by
    simp only [List.length_append]
    omega
  simp only [takeNum, h1, if_false, List.take_left' hlen, parseDigits_padDigits,
    List.drop_left' hlen]

theorem takeField_padDigits (k n : Nat) (c : Char) (rest : List Char) (hn : n < 10 ^ k)
    (hk : 1 ≤ k) : takeField k c (padDigits k n ++ c :: rest) = some (n, rest) := by
  simp [takeField, takeNum_padDigits k n (c :: rest) hn hk, takeChar]

theorem parseDigits_all_digits (l : List Char) (a v : Nat) (h : parseDigits l a = some v) :
    ∀ c ∈ l, digitVal c ≠ none := by
  induction l generalizing a with
  | nil => simp
  | cons c rest ih =>
    simp only [parseDigits] at h
    cases hd : digitVal c with
    | none => simp [hd] at h
    | some d =>
      simp only [hd] at h
      intro x hx
      rcases List.mem_cons.mp hx with rfl | hx1
      · simp [hd]
      · exact ih (a * 10 + d) h x hx1

theorem spanDigits_append (ds rest : List Char) (c0 : Char)
    (hds : ∀ c ∈ ds, digitVal c ≠ none) (hc0 : digitVal c0 = none) :
    spanDigits (ds ++ c0 :: rest) = (ds, c0 :: rest) := by
  induction ds with
  | nil => simp [spanDigits, hc0]
  | cons c cs ih =>
    have hc : digitVal c ≠ none := hds c (List.mem_cons_self c cs)
    have ih1 := ih (fun x hx => hds x (List.mem_cons_of_mem c hx))
    cases hd : digitVal c with
    | none => exact absurd hd hc
    | some d => simp [spanDigits, hd, ih1]

theorem trimZeros_spec (l : List Char) :
    ∃ z, l = trimZeros l ++ List.replicate z '0' := by
  have hsplit := List.takeWhile_append_dropWhile (fun c => decide (c = '0')) l.reverse
  have hall : ∀ x ∈ (l.reverse.takeWhile (fun c => decide (c = '0'))), x = '0' := by
    intro x hx
    have := List.mem_takeWhile_imp hx
    simpa using this
  have hrep : l.reverse.takeWhile (fun c => decide (c = '0')) =
      List.replicate (l.reverse.takeWhile (fun c => decide (c = '0'))).length '0' :=
    List.eq_replicate_iff.mpr ⟨rfl, hall⟩
  refine ⟨(l.reverse.takeWhile (fun c => decide (c = '0'))).length, ?_⟩
  have h2 : l = (l.reverse.dropWhile (fun c => decide (c = '0'))).reverse ++
      (l.reverse.takeWhile (fun c => decide (c = '0'))).reverse := by
    rw [← List.reverse_append, hsplit, List.reverse_reverse]
  rw [hrep, List.reverse_replicate] at h2
  exact h2

theorem takeFrac_fracDigits (nano : Nat) (hn : nano < 1000000000) :
    takeFrac (fracDigits nano ++ ['Z']) = some (nano, ['Z']) := by
  by_cases h0 : nano = 0
  · subst h0
    have : takeChar '.' ['Z'] = none := by decide
    simp [fracDigits, takeFrac, this]
  · have hpow : nano < 10 ^ 9 := by norm_num; exact hn
    have hlen := padDigits_length 9 nano hpow (by decide)
    have hparse := parseDigits_padDigits 9 nano
    obtain ⟨z, hz⟩ := trimZeros_spec (padDigits 9 nano)
    have hdigits : ∀ c ∈ trimZeros (padDigits 9 nano), digitVal c ≠ none := by
      intro c hc
      apply parseDigits_all_digits (padDigits 9 nano) 0 nano hparse c
      rw [hz]
      exact List.mem_append_left _ hc
    have hZ : digitVal 'Z' = none := by decide
    have hspan := spanDigits_append (trimZeros (padDigits 9 nano)) [] 'Z' hdigits hZ
    have hlen2 : (trimZeros (padDigits 9 nano)).length + z = 9 := by
      have := congrArg List.length hz
      simp only [List.length_append, List.length_replicate] at this
      omega
    rw [hz, parseDigits_append] at hparse
    cases hm : parseDigits (trimZeros (padDigits 9 nano)) 0 with
    | none => simp [hm] at hparse
    | some m =>
      simp only [hm, Option.some_bind, parseDigits_zeros, Option.some.injEq] at hparse
      have hne : trimZeros (padDigits 9 nano) ≠ [] := by
        intro hnil
        rw [hnil] at hm
        simp only [parseDigits, Option.some.injEq] at hm
        subst hm
        simp at hparse
        exact h0 hparse.symm
      have hz9 : 9 - (trimZeros (padDigits 9 nano)).length = z := by omega
      have hle : ¬ (9 < (trimZeros (padDigits 9 nano)).length) := by omega
      have hdot : takeChar '.' ('.' :: (trimZeros (padDigits 9 nano) ++ ['Z'])) =
          some (trimZeros (padDigits 9 nano) ++ ['Z']) := by
        simp [takeChar]
      simp only [fracDigits, h0, if_false, List.cons_append, takeFrac, hdot, hspan, hne, hle,
        or_self, hm, hz9, hparse]

theorem parseClock_written (t : Time) (hinst : IsInstant t) :
    parseClock ['Z'] t.year t.month t.day
        (padDigits 2 t.hour ++ ':' :: (padDigits 2 t.minute ++ ':' ::
          (padDigits 2 t.second ++ (fracDigits t.nano ++ ['Z'])))) = some t := by
  obtain ⟨_, _, _, _, hh, hmi, hs, hn⟩ := hinst
  have h1 := takeField_padDigits 2 t.hour ':' (padDigits 2 t.minute ++ ':' ::
    (padDigits 2 t.second ++ (fracDigits t.nano ++ ['Z']))) (by norm_num; omega) (by decide)
  have h2 := takeField_padDigits 2 t.minute ':'
    (padDigits 2 t.second ++ (fracDigits t.nano ++ ['Z'])) (by norm_num; omega) (by decide)
  have h3 := takeNum_padDigits 2 t.second (fracDigits t.nano ++ ['Z']) (by norm_num; omega)
    (by decide)
  have h4 := takeFrac_fracDigits t.nano hn
  simp only [parseClock, h1, h2, h3, h4, if_true]

theorem parseDateClock_written (t : Time) (hinst : IsInstant t) (hyear : t.year ≤ 9999) :
    parseDateClock 'T' ['Z'] (dateClock 'T' t ++ fracDigits t.nano ++ ['Z']) = some t := by
  have hclock := parseClock_written t hinst
  obtain ⟨hm1, hm2, hd1, hd2, hh, hmi, hs, hn⟩ := hinst
  have hday : t.day < 100 := by
    have : daysIn t.month t.year ≤ 31 := by
      unfold daysIn
      split <;> split <;> omega
    omega
  have hshape : dateClock 'T' t ++ fracDigits t.nano ++ ['Z'] =
      padDigits 4 t.year ++ '-' :: (padDigits 2 t.month ++ '-' :: (padDigits 2 t.day ++ 'T' ::
        (padDigits 2 t.hour ++ ':' :: (padDigits 2 t.minute ++ ':' ::
          (padDigits 2 t.second ++ (fracDigits t.nano ++ ['Z'])))))) := by
    simp [dateClock, List.append_assoc]
  have h1 := takeField_padDigits 4 t.year '-' (padDigits 2 t.month ++ '-' ::
    (padDigits 2 t.day ++ 'T' :: (padDigits 2 t.hour ++ ':' :: (padDigits 2 t.minute ++ ':' ::
      (padDigits 2 t.second ++ (fracDigits t.nano ++ ['Z'])))))) (by norm_num; omega)
    (by decide)
  have h2 := takeField_padDigits 2 t.month '-' (padDigits 2 t.day ++ 'T' ::
    (padDigits 2 t.hour ++ ':' :: (padDigits 2 t.minute ++ ':' ::
      (padDigits 2 t.second ++ (fracDigits t.nano ++ ['Z']))))) (by norm_num; omega) (by decide)
  have h3 := takeField_padDigits 2 t.day 'T' (padDigits 2 t.hour ++ ':' ::
    (padDigits 2 t.minute ++ ':' :: (padDigits 2 t.second ++ (fracDigits t.nano ++ ['Z']))))
    (by norm_num; omega) (by decide)
  have hvalid : validFields t = true := by
    simp [validFields, hm1, hm2, hd1, hd2, hh, hmi, hs]
  rw [hshape]
  simp only [parseDateClock, h1, h2, h3, hclock, hvalid, if_true]

/-- The instance `goJSON` reads back every instant of the years 0 to 9999 from the text
it writes for it. -/
theorem goJSON_reads_back (t : Time) (hinst : IsInstant t) (hyear : t.year ≤ 9999) :
    ReadsBack goJSON t := by
  have h := parseDateClock_written t hinst hyear
  simp only [ReadsBack, goJSON, hyear, if_true, Option.some_bind, rfc3339String]
  exact h

/-! ## Export and import of JSON documents -/

theorem decode_encoded (J : JSONLib) (tasks : List models.Task)
    (htime : ∀ t ∈ tasks, ReadsBack J t.CreatedAt ∧ ReadsBack J t.UpdatedAt) :
    ∃ objs, encodeTasks J tasks = some objs ∧ decodeTasks J objs = some tasks := by
  induction tasks with
  | nil => exact ⟨[], rfl, rfl⟩
  | cons task rest ih =>
    obtain ⟨objs, hen, hde⟩ := ih (fun t ht => htime t (List.mem_cons_of_mem task ht))
    obtain ⟨hc, hu⟩ := htime task (List.mem_cons_self task rest)
    unfold ReadsBack at hc hu
    cases hmc : J.marshalTime task.CreatedAt with
    | none => simp [hmc] at hc
    | some created =>
      cases hmu : J.marshalTime task.UpdatedAt with
      | none => simp [hmu] at hu
      | some updated =>
        simp only [hmc, hmu, Option.some_bind] at hc hu
        refine ⟨⟨task.ID, task.Title, task.Description, task.Status, created, updated⟩ :: objs,
          ?_, ?_⟩
        · simp [encodeTasks, encodeTask, hmc, hmu, hen]
        · simp [decodeTasks, decodeTask, hc, hu, hde]

theorem idExists_iff_mem (db : Store) (id : Int) :
    idExists db id = true ↔ id ∈ db.map (fun r => r.id) := by
  simp only [idExists, List.any_eq_true, decide_eq_true_eq, List.mem_map]

/-- What the loop of `importFromJSON` leaves: the table, followed by the rows of the
tasks whose id is new to the table and to the tasks before them. -/
theorem importTasks_inserts_first (tasks : List models.Task) (db : Store) :
    importTasks tasks db =
      ⟨db ++ (firstWithId (db.map (fun r => r.id)) tasks).map taskRow, .returned none⟩ := by
  induction tasks generalizing db with
  | nil => simp [importTasks, firstWithId]
  | cons task rest ih =>
    by_cases hex : idExists db task.ID = true
    · have hmem := (idExists_iff_mem db task.ID).mp hex
      simp only [importTasks, hex, if_true, firstWithId, hmem]
      exact ih db
    · have hmem : ¬ task.ID ∈ db.map (fun r => r.id) :=
        fun h => hex ((idExists_iff_mem db task.ID).mpr h)
      have hex1 : idExists db task.ID = false := by simpa using hex
      have := ih (db ++ [taskRow task])
      simp only [List.map_append, List.map_cons, List.map_nil] at this
      simp only [importTasks, hex1, insertRow, firstWithId, hmem, if_false, List.map_cons]
      simp only [taskRow] at this ⊢
      simp [this]

theorem firstWithId_of_nodup (seen : List Int) (tasks : List models.Task)
    (hseen : ∀ t ∈ tasks, t.ID ∉ seen) (hnodup : (tasks.map (fun t => t.ID)).Nodup) :
    firstWithId seen tasks = tasks := by
  induction tasks generalizing seen with
  | nil => rfl
  | cons task rest ih =>
    simp only [List.map_cons, List.nodup_cons] at hnodup
    have h1 : task.ID ∉ seen := hseen task (List.mem_cons_self task rest)
    have hrest : ∀ t ∈ rest, t.ID ∉ seen ++ [task.ID] := by
      intro t ht hmem
      rcases List.mem_append.mp hmem with h | h
      · exact hseen t (List.mem_cons_of_mem task ht) h
      · simp only [List.mem_singleton] at h
        exact hnodup.1 (List.mem_map.mpr ⟨t, ht, h⟩)
    simp only [firstWithId, h1, if_false]
    rw [ih (seen ++ [task.ID]) hrest hnodup.2]

/-- What `firstWithId` keeps: a task is kept exactly when its id is not in `seen` and it
is the first task of the list with its id. -/
theorem mem_firstWithId (seen : List Int) (tasks : List models.Task) (u : models.Task) :
    u ∈ firstWithId seen tasks ↔
      u.ID ∉ seen ∧ tasks.find? (fun x => decide (x.ID = u.ID)) = some u := by
  induction tasks generalizing seen with
  | nil => simp [firstWithId]
  | cons task rest ih =>
    by_cases hseen : task.ID ∈ seen
    · simp only [firstWithId, hseen, if_true, ih seen, List.find?_cons]
      by_cases hid : task.ID = u.ID
      · have hu : u.ID ∈ seen := hid ▸ hseen
        simp [hid, hu]
      · simp [hid]
    · simp only [firstWithId, hseen, if_false, List.mem_cons, ih (seen ++ [task.ID]),
        List.find?_cons, List.mem_append, List.mem_singleton, not_or]
      by_cases hid : task.ID = u.ID
      · have hu : u.ID ∉ seen := hid ▸ hseen
        simp only [hid, decide_True, Option.some.injEq, hu, not_false_eq_true, true_and]
        constructor
        · rintro (h | ⟨⟨h, _⟩, _⟩)
          · exact h.symm
          · exact absurd trivial h
        · intro h
          exact Or.inl h.symm
      · have hne : ¬ u = task := fun h => hid (by rw [h])
        have hne2 : ¬ u.ID = task.ID := fun h => hid h.symm
        simp [hid, hne, hne2]

/-- The tasks `firstWithId` keeps stand in the order of the list. -/
theorem firstWithId_sublist (seen : List Int) (tasks : List models.Task) :
    (firstWithId seen tasks).Sublist tasks := by
  induction tasks generalizing seen with
  | nil => simp [firstWithId]
  | cons task rest ih =>
    simp only [firstWithId]
    split
    · exact List.Sublist.cons task (ih seen)
    · exact List.Sublist.cons₂ task (ih (seen ++ [task.ID]))

/-- C11 (as stated, refuted): two lists for which export and import into an empty table
do not give the tuples back. When two tasks carry the same id the second is skipped, so
the table holds one row and the tuple of the second task is missing. When a timestamp
lies in the year 10000 `encoding/json` refuses to write it, the file stays empty, and
the import returns an error and inserts nothing. -/
theorem round_trip_loses_tasks :
    ((importFromJSON (decodeDocument goJSON (exportToJSON goJSON repeatedIdTasks).document)
          []).db = [⟨1, "Buy milk", "", "pending", sampleTime, sampleTime⟩] ∧
        ¬ (∀ t ∈ repeatedIdTasks,
            ∃ r ∈ (importFromJSON
                (decodeDocument goJSON (exportToJSON goJSON repeatedIdTasks).document) []).db,
              rowTuple r = taskTuple t)) ∧
      (exportToJSON goJSON farFutureTasks).document = none ∧
      importFromJSON (decodeDocument goJSON (exportToJSON goJSON farFutureTasks).document) [] =
        ⟨[], .returned (some "error decoding JSON file")⟩ := by
  decide

/-- C11 (amended): for every list of tasks whose timestamps are instants of the years 0
to 9999, exporting it with exportToJSON and importing the document with importFromJSON
into an empty table returns no error and leaves in the table, in list order, exactly the
rows of the tasks that are the first of the list with their id (a task whose id an
earlier task of the list carries is skipped), each with its id, title, description,
status and the same instants in created_at and updated_at. The kept tasks are
`firstWithId [] tasks`: a sublist of the list that holds a task exactly when searching
the list for its id finds that task. When the ids of the list are pairwise distinct these
are all its tasks, so the (id, title, description, status) tuples and the timestamps of
the table are those of the exported list. -/
theorem export_then_import_restores_the_tasks (tasks : List models.Task)
    (hinst : ∀ t ∈ tasks, IsInstant t.CreatedAt ∧ IsInstant t.UpdatedAt)
    (hyear : ∀ t ∈ tasks, t.CreatedAt.year ≤ 9999 ∧ t.UpdatedAt.year ≤ 9999) :
    importFromJSON (decodeDocument goJSON (exportToJSON goJSON tasks).document) [] =
        ⟨(firstWithId [] tasks).map taskRow, .returned none⟩ ∧
      (firstWithId [] tasks).Sublist tasks ∧
      (∀ u, u ∈ firstWithId [] tasks ↔
        tasks.find? (fun x => decide (x.ID = u.ID)) = some u) ∧
      ((tasks.map (fun t => t.ID)).Nodup →
        (importFromJSON (decodeDocument goJSON (exportToJSON goJSON tasks).document) []).db =
            tasks.map taskRow ∧
          (tasks.map taskRow).map rowTuple = tasks.map taskTuple ∧
          (tasks.map taskRow).map (fun r => (r.created_at, r.updated_at)) =
            tasks.map (fun t => (t.CreatedAt, t.UpdatedAt))) := by
  have htime : ∀ t ∈ tasks, ReadsBack goJSON t.CreatedAt ∧ ReadsBack goJSON t.UpdatedAt :=
    fun t ht => ⟨goJSON_reads_back _ (hinst t ht).1 (hyear t ht).1,
      goJSON_reads_back _ (hinst t ht).2 (hyear t ht).2⟩
  obtain ⟨objs, hen, hde⟩ := decode_encoded goJSON tasks htime
  have himp := importTasks_inserts_first tasks []
  simp only [List.map_nil, List.nil_append] at himp
  have hmain : importFromJSON (decodeDocument goJSON (exportToJSON goJSON tasks).document) [] =
      ⟨(firstWithId [] tasks).map taskRow, .returned none⟩ := by
    simp only [exportToJSON, hen, decodeDocument, hde, importFromJSON, himp]
  refine ⟨hmain, firstWithId_sublist [] tasks, ?_, ?_⟩
  · intro u
    simpa using mem_firstWithId [] tasks u
  intro hnodup
  rw [hmain, firstWithId_of_nodup [] tasks (fun t _ => by simp) hnodup]
  refine ⟨rfl, ?_, ?_⟩
  · simp [taskRow, rowTuple, taskTuple]
  · simp [taskRow]

theorem export_then_import_restores_the_tasks_witness :
    (∀ t ∈ twoTasks, IsInstant t.CreatedAt ∧ IsInstant t.UpdatedAt) ∧
      (∀ t ∈ twoTasks, t.CreatedAt.year ≤ 9999 ∧ t.UpdatedAt.year ≤ 9999) ∧
      (twoTasks.map (fun t => t.ID)).Nodup ∧
      (importFromJSON (decodeDocument goJSON (exportToJSON goJSON twoTasks).document) [] =
          ⟨(firstWithId [] twoTasks).map taskRow, .returned none⟩ ∧
        (firstWithId [] twoTasks).Sublist twoTasks ∧
        (∀ u, u ∈ firstWithId [] twoTasks ↔
          twoTasks.find? (fun x => decide (x.ID = u.ID)) = some u) ∧
        ((twoTasks.map (fun t => t.ID)).Nodup →
          (importFromJSON (decodeDocument goJSON (exportToJSON goJSON twoTasks).document)
              []).db = twoTasks.map taskRow ∧
            (twoTasks.map taskRow).map rowTuple = twoTasks.map taskTuple ∧
            (twoTasks.map taskRow).map (fun r => (r.created_at, r.updated_at)) =
              twoTasks.map (fun t => (t.CreatedAt, t.UpdatedAt)))) :=
  ⟨by decide, by decide, by decide,
    export_then_import_restores_the_tasks twoTasks (by decide) (by decide)⟩

/-- C12: export from the flat file does not read the adapter's timestamps back: a
timestamp that is not RFC 3339 text, as the adapter writes it, is parsed with
`time.RFC3339`, the error is discarded, and the task carries the zero time in created_at
and updated_at. -/
theorem fetchTasksFromCSV_loses_adapter_timestamps (E : Env) (header : Record)
    (c0 c1 c2 c3 c4 c5 : String)
    (h4 : E.parseRFC3339 c4 = none) (h5 : E.parseRFC3339 c5 = none) :
    fetchTasksFromCSV E (some [header, [c0, c1, c2, c3, c4, c5]]) =
      .done [⟨MustAtoi c0, c1, c2, c3, zeroTime, zeroTime⟩] := by
  simp [fetchTasksFromCSV, fetchRecords, parseOrZero, h4, h5]

theorem fetchTasksFromCSV_loses_adapter_timestamps_witness :
    (saveToCSVFile goEnv [] ⟨"Buy milk", ""⟩ sampleTime laterTime).file =
        [csvHeaders, ["1", "Buy milk", "", "pending", goEnv.render sampleTime,
          goEnv.render laterTime]] ∧
      goEnv.parseStamp (goEnv.render sampleTime) = some sampleTime ∧
      goEnv.parseStamp (goEnv.render laterTime) = some laterTime ∧
      sampleTime ≠ zeroTime ∧ laterTime ≠ zeroTime ∧
      fetchTasksFromCSV goEnv
          (some [csvHeaders, ["1", "Buy milk", "", "pending", goEnv.render sampleTime,
            goEnv.render laterTime]]) =
        .done [⟨MustAtoi "1", "Buy milk", "", "pending", zeroTime, zeroTime⟩] :=
  ⟨by decide, by decide, by decide, by decide, by decide,
    fetchTasksFromCSV_loses_adapter_timestamps goEnv csvHeaders "1" "Buy milk" "" "pending"
      (goEnv.render sampleTime) (goEnv.render laterTime) (by decide) (by decide)⟩

/-- C13: a delimited document whose rows have fewer than six columns does not make
the import return an error: `record[4]` (or `record[5]`) is out of range on the first
data row and the import panics; the table is as it was. -/
theorem importFromCSV_panics_on_short_rows (E : Env) (header row : Record)
    (rest : List Record) (db : Store) (h : row.length < 6) :
    importFromCSV E (some (header :: row :: rest)) db = ⟨db, .crash "index out of range"⟩ := by
  match row, h with
  | [], _ => rfl
  | [_], _ => rfl
  | [_, _], _ => rfl
  | [_, _, _], _ => rfl
  | [_, _, _, _], _ => rfl
  | [_, _, _, _, _], _ => rfl
  | _ :: _ :: _ :: _ :: _ :: _ :: _, h => simp at h; omega

theorem importFromCSV_panics_on_short_rows_witness :
    ["1", "Buy milk"].length < 6 ∧
      importFromCSV goEnv (some (["ID", "TITLE"] :: ["1", "Buy milk"] :: [])) [] =
        ⟨[], .crash "index out of range"⟩ :=
  ⟨by decide, importFromCSV_panics_on_short_rows goEnv ["ID", "TITLE"] ["1", "Buy milk"] [] []
    (by decide)⟩

/-- C14: a data row whose ID column is not an integer does not make the decoding fail:
the loop of `getDataFromCSVFile` breaks there and the function returns normally with the
tasks decoded before it, here none, whatever rows follow. -/
theorem getDataFromCSVFile_stops_at_a_bad_id (E : Env) (header : Record)
    (c0 c1 c2 c3 c4 c5 : String) (more : List String) (rest : List Record)
    (h : atoi c0 = none) :
    getDataFromCSVFile E (header :: (c0 :: c1 :: c2 :: c3 :: c4 :: c5 :: more) :: rest) =
      .done [] := by
  simp [getDataFromCSVFile, decodeRows, decodeRow, h]

theorem getDataFromCSVFile_stops_at_a_bad_id_witness :
    atoi "one" = none ∧
      getDataFromCSVFile goEnv
          (csvHeaders ::
            ("one" :: "Buy milk" :: "" :: "pending" :: "2024-05-01 12:00:07.12 +0000 UTC" ::
              "2024-05-01 12:00:07.12 +0000 UTC" :: []) :: dataRows twoTaskFile) =
        .done [] :=
  ⟨by decide, getDataFromCSVFile_stops_at_a_bad_id goEnv csvHeaders "one" "Buy milk" ""
    "pending" "2024-05-01 12:00:07.12 +0000 UTC" "2024-05-01 12:00:07.12 +0000 UTC" []
    (dataRows twoTaskFile) (by decide)⟩

/-- C15: on a flat file that holds nothing at all, list does not print the empty array,
whatever the format: `getDataFromCSVFile` slices `csvData[1:]` of an empty slice and the
call panics. -/
theorem listFromCSVFile_panics_on_empty_file (E : Env) (J : JSONLib) (format : String) :
    listFromCSVFile E J [] format = .crash "slice bounds out of range [1:0]" := by
  rfl

theorem listFromCSVFile_header_only (E : Env) (J : JSONLib) (header : Record) :
    listFromCSVFile E J [header] "json" = .done (.json "[]") := by
  rfl

/-! ## The create and import commands -/

/-- C17: an empty title given as the positional argument is not rejected: create stores
a task with an empty title in the backend the user chooses and ends normally. -/
theorem createCmd_stores_an_empty_title (E : Env) (description : String) (db : Store)
    (t1 t2 : Time) (rowid : Int) (now : Time) (typed : Option String) :
    createCmd E ⟨[""], typed, some description, some "CSV File"⟩ [] db t1 t2 rowid now =
        ⟨[csvHeaders, ["1", "", description, "pending", E.render t1, E.render t2]], db,
          .done ()⟩ ∧
      createCmd E ⟨[""], typed, some description, some "Database (sqlite)"⟩ [] [] t1 t2 rowid
          now =
        ⟨[], [⟨rowid, "", description, "pending", now, now⟩], .done ()⟩ := by
  constructor
  · have h := (saveToCSVFile_first_task E "" description t1 t2).2.1
    simp [createCmd, createTitle, h]
  · have hne : ¬ ("Database (sqlite)" = "CSV File") := by decide
    simp [createCmd, createTitle, hne, saveToSqliteDB, insertRow, idExists]

/-- C18: run without a format argument, the import command runs neither importer: for
every item chosen at the selection and every file path entered it prints "Invalid format
selected." and leaves the table as it was. -/
theorem importCmd_ignores_the_selection (E : Env) (choice path : String)
    (jsonAt : String → Option (List models.Task)) (csvAt : String → Option (List Record))
    (db : Store) :
    importCmd E ⟨[], some choice, some path⟩ jsonAt csvAt db =
      ⟨db, .done "Invalid format selected."⟩ := by
  have h1 : ¬ ("" = "json") := by decide
  have h2 : ¬ ("" = "csv") := by decide
  simp [importCmd, importWithFormat, h1, h2]

/-! ## The status of the stored tasks -/

theorem newRecord_status (E : Env) (k : Int) (task : cmd.Task) (t1 t2 : Time) (s : String)
    (h : (newRecord E k task t1 t2)[3]? = some s) : ValidStatus s := by
  simp [newRecord] at h
  exact Or.inl h.symm

theorem valid_after_append (file : CSVFile) (row : Record) (hne : file ≠ [])
    (hfile : FileStatusesValid file) (hrow : ∀ s, row[3]? = some s → ValidStatus s) :
    FileStatusesValid (file ++ [row]) := by
  cases file with
  | nil => exact absurd rfl hne
  | cons header rows =>
    intro r hr s hs
    simp only [dataRows, List.cons_append, List.drop_succ_cons, List.drop_zero,
      List.mem_append, List.mem_singleton] at hr
    rcases hr with hr | rfl
    · exact hfile r (by simpa [dataRows] using hr) s hs
    · exact hrow s hs

theorem saveToCSVFile_keeps_statuses_valid (E : Env) (file : CSVFile) (task : cmd.Task)
    (t1 t2 : Time) (hfile : FileStatusesValid file) :
    FileStatusesValid (saveToCSVFile E file task t1 t2).file := by
  unfold saveToCSVFile
  split
  · intro r hr s hs
    simp only [dataRows, List.cons_append, List.nil_append, List.drop_succ_cons,
      List.drop_zero, List.mem_singleton] at hr
    subst hr
    exact newRecord_status E 1 task t1 t2 s hs
  · rename_i hlen
    have hne : file ≠ [] := by
      intro h
      simp [h] at hlen
    simp only
    split
    · split
      · exact hfile
      · split
        · exact hfile
        · split
          · exact hfile
          · exact valid_after_append file _ hne hfile (newRecord_status E _ task t1 t2)
    · exact valid_after_append file _ hne hfile (newRecord_status E _ task t1 t2)

theorem decodeRow_status (E : Env) (r : Record) (t : DBTask) (h : decodeRow E r = .task t) :
    r[3]? = some t.Status := by
  unfold decodeRow at h
  split at h
  · split at h
    · simp at h
    · split at h
      · simp at h
      · split at h
        · simp at h
        · simp only [RowStep.task.injEq] at h
          subst h
          simp
  · simp at h

theorem decodeRows_statuses (E : Env) (rows : List Record) (acc ts : List DBTask)
    (hrows : ∀ r ∈ rows, ∀ s, r[3]? = some s → ValidStatus s)
    (hacc : ∀ t ∈ acc, ValidStatus t.Status)
    (h : decodeRows E rows acc = .done ts) : ∀ t ∈ ts, ValidStatus t.Status := by
  induction rows generalizing acc with
  | nil =>
    simp only [decodeRows, Outcome.done.injEq] at h
    subst h
    exact hacc
  | cons r rest ih =>
    have hrest : ∀ x ∈ rest, ∀ s, x[3]? = some s → ValidStatus s :=
      fun x hx => hrows x (List.mem_cons_of_mem r hx)
    unfold decodeRows at h
    split at h
    · exact ih acc hrest hacc h
    · simp only [Outcome.done.injEq] at h
      subst h
      exact hacc
    · simp at h
    · rename_i t ht
      refine ih (acc ++ [t]) hrest ?_ h
      intro x hx
      rcases List.mem_append.mp hx with hx | hx
      · exact hacc x hx
      · simp only [List.mem_singleton] at hx
        subst hx
        exact hrows r (List.mem_cons_self r rest) _ (decodeRow_status E r x ht)

theorem deleteFromCSVFile_keeps_statuses_valid (E : Env) (file : CSVFile) (id : Int)
    (hfile : FileStatusesValid file) :
    FileStatusesValid (deleteFromCSVFile E file id).file := by
  unfold deleteFromCSVFile
  split
  · exact hfile
  · exact hfile
  · rename_i data hdata
    split
    · exact hfile
    · simp only
      split
      · exact hfile
      · have hvalid : ∀ t ∈ data, ValidStatus t.Status := by
          cases file with
          | nil => simp [getDataFromCSVFile] at hdata
          | cons header rows =>
            simp only [getDataFromCSVFile] at hdata
            exact decodeRows_statuses E rows [] data
              (fun r hr => hfile r (by simpa [dataRows] using hr)) (by simp) hdata
        intro r hr s hs
        simp only [dataRows, List.drop_succ_cons, List.drop_zero, List.mem_map,
          List.mem_filter] at hr
        obtain ⟨t, ⟨ht, _⟩, rfl⟩ := hr
        simp only [taskRecord] at hs
        simp at hs
        subst hs
        exact hvalid t ht

theorem setField_status (record updated : Record) (i : Nat) (v : String)
    (h : setField record i v = some updated) (s : String) (hs : updated[3]? = some s) :
    (i = 3 ∧ s = v) ∨ record[3]? = some s := by
  unfold setField at h
  split at h
  · simp only [Option.some.injEq] at h
    subst h
    by_cases hi : i = 3
    · subst hi
      left
      rw [List.getElem?_set_self (by assumption)] at hs
      exact ⟨rfl, (Option.some.inj hs).symm⟩
    · right
      rw [List.getElem?_set_ne hi] at hs
      exact hs
  · simp at h

theorem editRecord_status (E : Env) (record updated : Record) (title status : String)
    (now : Time) (h : editRecord E record title status now = some updated)
    (s : String) (hs : updated[3]? = some s) :
    (status ≠ "" ∧ s = status) ∨ record[3]? = some s := by
  unfold editRecord at h
  split at h
  · simp at h
  · rename_i r1 h1
    split at h
    · simp at h
    · rename_i r3 h3
      rcases setField_status r3 updated 5 (E.render now) h s hs with ⟨h5, _⟩ | hs3
      · omega
      · have hstep : (status ≠ "" ∧ s = status) ∨ r1[3]? = some s := by
          by_cases hst : status = ""
          · simp only [hst, ne_eq, not_true_eq_false, if_false, Option.some.injEq] at h3
            subst h3
            exact Or.inr hs3
          · simp only [ne_eq, hst, not_false_eq_true, if_true] at h3
            rcases setField_status r1 r3 3 status h3 s hs3 with ⟨_, hv⟩ | hs1
            · exact Or.inl ⟨hst, hv⟩
            · exact Or.inr hs1
        rcases hstep with hl | hs1
        · exact Or.inl hl
        · right
          by_cases hti : title = ""
          · simp only [hti, ne_eq, not_true_eq_false, if_false, Option.some.injEq] at h1
            subst h1
            exact hs1
          · simp only [ne_eq, hti, not_false_eq_true, if_true] at h1
            rcases setField_status record r1 1 title h1 s hs1 with ⟨h13, _⟩ | hs0
            · omega
            · exact hs0

theorem editRows_statuses (E : Env) (id : Int) (title status : String) (now : Time)
    (rows updated : List Record)
    (hrows : ∀ r ∈ rows, ∀ s, r[3]? = some s → ValidStatus s)
    (hstatus : status = "" ∨ ValidStatus status)
    (h : editRows E id title status now rows = .done (some updated)) :
    ∀ r ∈ updated, ∀ s, r[3]? = some s → ValidStatus s := by
  induction rows generalizing updated with
  | nil => simp [editRows] at h
  | cons record rest ih =>
    have hrest : ∀ x ∈ rest, ∀ s, x[3]? = some s → ValidStatus s :=
      fun x hx => hrows x (List.mem_cons_of_mem record hx)
    unfold editRows at h
    split at h
    · simp at h
    · split at h
      · split at h
        · simp at h
        · rename_i changed hchanged
          simp only [Outcome.done.injEq, Option.some.injEq] at h
          subst h
          intro r hr s hs
          rcases List.mem_cons.mp hr with rfl | hr1
          · rcases editRecord_status E record r title status now hchanged s hs with
              ⟨hne, hv⟩ | hold
            · rcases hstatus with he | hv1
              · exact absurd he hne
              · rw [hv]
                exact hv1
            · exact hrows record (List.mem_cons_self record rest) s hold
          · exact hrest r hr1 s hs
      · split at h
        · rename_i rows1 hrows1
          simp only [Outcome.done.injEq, Option.some.injEq] at h
          subst h
          intro r hr s hs
          rcases List.mem_cons.mp hr with rfl | hr1
          · exact hrows r (List.mem_cons_self r rest) s hs
          · exact ih rows1 hrest hrows1 r hr1 s hs
        · rename_i other hother
          rw [h] at hother
          exact absurd rfl (hother updated)

theorem editTaskInCSV_keeps_statuses_valid (E : Env) (file : CSVFile) (id : Int)
    (title status : String) (now : Time) (hfile : FileStatusesValid file)
    (hstatus : status = "" ∨ ValidStatus status) :
    FileStatusesValid (editTaskInCSV E file id title status now).file := by
  unfold editTaskInCSV
  split
  · exact hfile
  · exact hfile
  · exact hfile
  · rename_i rows hrows
    have hvalid := editRows_statuses E id title status now (file.drop 1) rows hfile hstatus hrows
    cases file with
    | nil =>
      simp [editRows] at hrows
    | cons header rest =>
      intro r hr s hs
      simp only [dataRows, List.take_succ_cons, List.take_zero, List.cons_append,
        List.nil_append, List.drop_succ_cons, List.drop_zero] at hr
      exact hvalid r hr s hs

theorem saveToSqliteDB_keeps_statuses_valid (db : Store) (task : cmd.Task) (rowid : Int)
    (now : Time) (hdb : StoreStatusesValid db) :
    StoreStatusesValid (saveToSqliteDB db task rowid now).db := by
  unfold saveToSqliteDB insertRow
  split
  · split at * <;> simp_all
  · rename_i db1 h
    split at h
    · simp at h
    · simp only [Option.some.injEq] at h
      subst h
      intro r hr
      rcases List.mem_append.mp hr with hr | hr
      · exact hdb r hr
      · simp only [List.mem_singleton] at hr
        subst hr
        exact Or.inl rfl

theorem deleteFromDB_keeps_statuses_valid (db : Store) (id : Int)
    (hdb : StoreStatusesValid db) : StoreStatusesValid (deleteFromDB db id).db := by
  simp only [deleteFromDB]
  split <;> exact fun r hr => hdb r (List.mem_filter.mp hr).1

theorem editKnownTask_keeps_statuses_valid (db : Store) (id : Int) (title status : String)
    (asked : EditPrompts) (now : Time) (hdb : StoreStatusesValid db)
    (hstatus : status = "" ∨ ValidStatus status)
    (hasked : asked.status = "" ∨ ValidStatus asked.status) :
    StoreStatusesValid (editKnownTask db id title status asked now).db := by
  simp only [editKnownTask]
  cases hcur : List.find? (fun row => decide (row.id = id)) db with
  | none => exact hdb
  | some current =>
    have hcurrent : ValidStatus current.status := hdb current (List.mem_of_find?_eq_some hcur)
    have hnew : ValidStatus
        (if (if status = "" then asked.status else status) = "" then current.status
          else (if status = "" then asked.status else status)) := by
      by_cases h1 : status = ""
      · by_cases h2 : asked.status = ""
        · simp [h1, h2, hcurrent]
        · rcases hasked with h | h
          · exact absurd h h2
          · simp [h1, h2, h]
      · rcases hstatus with h | h
        · exact absurd h h1
        · simp [h1, h]
    intro r hr
    simp only [updateRow, List.mem_map] at hr
    obtain ⟨row, hrow, rfl⟩ := hr
    split
    · exact hnew
    · exact hdb row hrow

theorem editTaskInDatabase_keeps_statuses_valid (db : Store) (id : Int)
    (title status : String) (asked : EditPrompts) (now : Time) (hdb : StoreStatusesValid db)
    (hstatus : status = "" ∨ ValidStatus status)
    (hasked : asked.status = "" ∨ ValidStatus asked.status) :
    StoreStatusesValid (editTaskInDatabase db id title status asked now).db := by
  unfold editTaskInDatabase
  split
  · split
    · exact hdb
    · exact editKnownTask_keeps_statuses_valid db _ title status asked now hdb hstatus hasked
  · exact editKnownTask_keeps_statuses_valid db id title status asked now hdb hstatus hasked

theorem importTasks_keeps_statuses_valid (tasks : List models.Task) (db : Store)
    (hdb : StoreStatusesValid db) (htasks : ∀ t ∈ tasks, ValidStatus t.Status) :
    StoreStatusesValid (importTasks tasks db).db := by
  induction tasks generalizing db with
  | nil => exact hdb
  | cons task rest ih =>
    have hrest : ∀ t ∈ rest, ValidStatus t.Status :=
      fun t ht => htasks t (List.mem_cons_of_mem task ht)
    unfold importTasks
    split
    · exact ih db hdb hrest
    · split
      · exact hdb
      · rename_i db1 h
        refine ih db1 ?_ hrest
        unfold insertRow at h
        split at h
        · simp at h
        · simp only [Option.some.injEq] at h
          subst h
          intro r hr
          rcases List.mem_append.mp hr with hr | hr
          · exact hdb r hr
          · simp only [List.mem_singleton] at hr
            subst hr
            exact htasks task (List.mem_cons_self task rest)

theorem importRecords_keeps_statuses_valid (E : Env) (records : List Record) (db : Store)
    (hdb : StoreStatusesValid db)
    (hrecords : ∀ r ∈ records, ∀ s, r[3]? = some s → ValidStatus s) :
    StoreStatusesValid (importRecords E records db).db := by
  induction records generalizing db with
  | nil => exact hdb
  | cons record rest ih =>
    have hrest : ∀ r ∈ rest, ∀ s, r[3]? = some s → ValidStatus s :=
      fun r hr => hrecords r (List.mem_cons_of_mem record hr)
    unfold importRecords
    split
    · rename_i c0 c1 c2 c3 c4 c5 more
      simp only
      split
      · exact ih db hdb hrest
      · split
        · exact hdb
        · rename_i db1 h
          refine ih db1 ?_ hrest
          unfold insertRow at h
          split at h
          · simp at h
          · simp only [Option.some.injEq] at h
            subst h
            intro r hr
            rcases List.mem_append.mp hr with hr | hr
            · exact hdb r hr
            · simp only [List.mem_singleton] at hr
              subst hr
              exact hrecords _ (List.mem_cons_self _ rest) c3 (by simp)
    · exact hdb

/-- C16 (as stated, refuted): a status outside the three values gets stored. Import of a
document whose task has status "done" inserts the row with that status, and edit with
status "done" writes it into the STATUS column of the flat file. -/
theorem a_foreign_status_is_stored :
    (importFromJSON (some [⟨1, "Buy milk", "", "done", sampleTime, sampleTime⟩]) []).db =
        [⟨1, "Buy milk", "", "done", sampleTime, sampleTime⟩] ∧
      ¬ StoreStatusesValid
        (importFromJSON (some [⟨1, "Buy milk", "", "done", sampleTime, sampleTime⟩]) []).db ∧
      (editTaskInCSV goEnv oneTaskFile 1 "" "done" laterTime).file =
        [csvHeaders, ["1", "Buy milk", "", "done", "2024-05-01 12:00:07.12 +0000 UTC",
          "2024-05-01 12:03:00 +0000 UTC"]] ∧
      ¬ FileStatusesValid (editTaskInCSV goEnv oneTaskFile 1 "" "done" laterTime).file := by
  have himp : (importFromJSON (some [⟨1, "Buy milk", "", "done", sampleTime, sampleTime⟩])
      []).db = [⟨1, "Buy milk", "", "done", sampleTime, sampleTime⟩] := by decide
  have hedit : (editTaskInCSV goEnv oneTaskFile 1 "" "done" laterTime).file =
      [csvHeaders, ["1", "Buy milk", "", "done", "2024-05-01 12:00:07.12 +0000 UTC",
        "2024-05-01 12:03:00 +0000 UTC"]] := by decide
  refine ⟨himp, ?_, hedit, ?_⟩
  · rw [himp]
    intro h
    have := h _ (List.mem_singleton.mpr rfl)
    revert this
    decide
  · rw [hedit]
    intro h
    have := h ["1", "Buy milk", "", "done", "2024-05-01 12:00:07.12 +0000 UTC",
      "2024-05-01 12:03:00 +0000 UTC"] (by simp [dataRows]) "done" (by simp)
    revert this
    decide

/-- C16 (amended): starting from backends in which every status is one of pending,
in-progress, completed, this still holds after create and after delete on either
backend for every argument; after edit on either backend when the status given (by the
flag or at the selection) is empty or one of the three values; and after import of a
JSON or delimited document when every status in the document is one of the three
values. -/
theorem statuses_stay_valid (E : Env) (file : CSVFile) (db : Store) (task : cmd.Task)
    (t1 t2 now : Time) (rowid id : Int) (title status : String) (asked : EditPrompts)
    (decoded : Option (List models.Task)) (read : Option (List Record))
    (hfile : FileStatusesValid file) (hdb : StoreStatusesValid db)
    (hstatus : status = "" ∨ ValidStatus status)
    (hasked : asked.status = "" ∨ ValidStatus asked.status)
    (hdecoded : ∀ tasks, decoded = some tasks → ∀ t ∈ tasks, ValidStatus t.Status)
    (hread : ∀ records, read = some records → FileStatusesValid records) :
    FileStatusesValid (saveToCSVFile E file task t1 t2).file ∧
      FileStatusesValid (deleteFromCSVFile E file id).file ∧
      FileStatusesValid (editTaskInCSV E file id title status now).file ∧
      StoreStatusesValid (saveToSqliteDB db task rowid now).db ∧
      StoreStatusesValid (deleteFromDB db id).db ∧
      StoreStatusesValid (editTaskInDatabase db id title status asked now).db ∧
      StoreStatusesValid (importFromJSON decoded db).db ∧
      StoreStatusesValid (importFromCSV E read db).db := by
  refine ⟨saveToCSVFile_keeps_statuses_valid E file task t1 t2 hfile,
    deleteFromCSVFile_keeps_statuses_valid E file id hfile,
    editTaskInCSV_keeps_statuses_valid E file id title status now hfile hstatus,
    saveToSqliteDB_keeps_statuses_valid db task rowid now hdb,
    deleteFromDB_keeps_statuses_valid db id hdb,
    editTaskInDatabase_keeps_statuses_valid db id title status asked now hdb hstatus hasked,
    ?_, ?_⟩
  · cases decoded with
    | none => exact hdb
    | some tasks => exact importTasks_keeps_statuses_valid tasks db hdb (hdecoded tasks rfl)
  · cases read with
    | none => exact hdb
    | some records =>
      exact importRecords_keeps_statuses_valid E (records.drop 1) db hdb (hread records rfl)

theorem statuses_stay_valid_witness :
    FileStatusesValid twoTaskFile ∧
      StoreStatusesValid (twoTasks.map taskRow) ∧
      (∀ t ∈ twoTasks, ValidStatus t.Status) ∧
      (("completed" : String) = "" ∨ ValidStatus "completed") ∧
      ((⟨none, "", "in-progress"⟩ : EditPrompts).status = "" ∨
        ValidStatus (⟨none, "", "in-progress"⟩ : EditPrompts).status) ∧
      (FileStatusesValid
          (saveToCSVFile goEnv twoTaskFile ⟨"Feed cat", ""⟩ sampleTime laterTime).file ∧
        FileStatusesValid (deleteFromCSVFile goEnv twoTaskFile 1).file ∧
        FileStatusesValid (editTaskInCSV goEnv twoTaskFile 1 "" "completed" laterTime).file ∧
        StoreStatusesValid
          (saveToSqliteDB (twoTasks.map taskRow) ⟨"Feed cat", ""⟩ 3 laterTime).db ∧
        StoreStatusesValid (deleteFromDB (twoTasks.map taskRow) 1).db ∧
        StoreStatusesValid
          (editTaskInDatabase (twoTasks.map taskRow) 1 "" "completed"
            ⟨none, "", "in-progress"⟩ laterTime).db ∧
        StoreStatusesValid (importFromJSON (some twoTasks) (twoTasks.map taskRow)).db ∧
        StoreStatusesValid
          (importFromCSV goEnv (some twoTaskFile) (twoTasks.map taskRow)).db) :=
  ⟨by decide, by decide, by decide, by decide, by decide,
    statuses_stay_valid goEnv twoTaskFile (twoTasks.map taskRow) ⟨"Feed cat", ""⟩ sampleTime
      laterTime laterTime 3 1 "" "completed" ⟨none, "", "in-progress"⟩ (some twoTasks)
      (some twoTaskFile) (by decide) (by decide) (by decide) (by decide)
      (by
        intro tasks h t ht
        cases h
        revert t
        decide)
      (by
        intro records h
        cases h
        decide)⟩

end TasksCli
